import Mathlib

/-!
Shallow embedding of the minesweeper board engine (src/gameboard.rs and the
intent dispatch of src/gameboard_controller.rs) together with proofs about
its specification.

Modelling conventions:
* `usize` values are modelled as `Nat`; Rust `saturating_sub 1` is `Nat`
  subtraction.  The `u8` neighbour counter of `count_neighbor_bombs` is
  modelled as `Nat` (at most 9 cells are inspected, so no wrap can occur).
* The grid `Vec<Vec<Cell>>` is a `List (List Cell)` indexed `cells[row][col]`.
  Rust indexing panics out of range; the embedding reads a default cell and
  lets `List.set` be the identity there.  Reachable boards are well formed
  (`Gameboard.WF`), so this branch is never exercised.
* The random number generator is an explicit list of drawn `(col, row)`
  pairs; rejection sampling consumes one pair per loop iteration and returns
  `none` when the list is exhausted before every bomb is placed (the Rust
  loop would still be running).
* The recursion of `reveal_with_no_neighbors` is driven by an explicit
  depth budget (`revealDescend`); the budget `cols*rows + 1` is proved
  sufficient for well-formed boards, so the embedded total function agrees
  with the Rust recursion wherever the latter terminates.
-/


-- ## Definitions

/-- The different values of a cell from the user (`PlayerCell` in the source). -/
inductive PlayerCell where
  | NotDetermined
  | Flagged
  | Question
  | Revealed
deriving DecidableEq, Repr

/-- The actual content of the cell (`CellContent` in the source). -/
inductive CellContent where
  | Nothing (n : Nat)
  | Bomb
deriving DecidableEq, Repr

/-- A sweeper cell: the player's view and the real content. -/
structure Cell where
  player : PlayerCell
  content : CellContent
deriving DecidableEq, Repr

/-- Rust `Default` for `Cell`: `NotDetermined` view over `Nothing(0)`. -/
instance : Inhabited Cell := ⟨⟨.NotDetermined, .Nothing 0⟩⟩

/-- The game state machine (`GameState` in the source). -/
inductive GameState where
  | Initial
  | Alive
  | Won
  | Lost
deriving DecidableEq, Repr

/-- The game board (`Gameboard` in the source).  `size = (cols, rows)`. -/
structure Gameboard where
  size : Nat × Nat
  bombs : Nat
  flagged : Nat
  state : GameState
  cells : List (List Cell)
deriving DecidableEq, Repr

/-- `Gameboard::new`.  The `assert!(rows * cols > bombs)` precondition is
carried as a hypothesis wherever it matters. -/
def Gameboard.new (cols rows bombs : Nat) : Gameboard :=
  { size := (cols, rows)
    bombs := bombs
    flagged := 0
    state := .Initial
    cells := List.replicate rows (List.replicate cols default) }

/-- `Gameboard::get_cell` (out-of-range reads return the default cell; Rust
would panic there and reachable uses are in range). -/
def Gameboard.get_cell (b : Gameboard) (col row : Nat) : Cell :=
  (b.cells.getD row []).getD col default

/-- The single mutation primitive behind `get_mut_cell`: rewrite the cell at
`(col, row)` through `f`.  Out of range it leaves the board unchanged. -/
def Gameboard.modify_cell (b : Gameboard) (col row : Nat) (f : Cell → Cell) : Gameboard :=
  { b with cells := b.cells.set row ((b.cells.getD row []).set col (f (b.get_cell col row))) }

/-- Writing the player facet of a cell (`cell.player = val`). -/
def Gameboard.put_player (b : Gameboard) (col row : Nat) (val : PlayerCell) : Gameboard :=
  b.modify_cell col row (fun c => { c with player := val })

/-- Writing the content facet of a cell (`cell.content = val`). -/
def Gameboard.put_content (b : Gameboard) (col row : Nat) (val : CellContent) : Gameboard :=
  b.modify_cell col row (fun c => { c with content := val })

/-- Boolean test for the `Flagged` view. -/
def isFlagged : PlayerCell → Bool
  | .Flagged => true
  | _ => false

/-- Boolean test for the `Revealed` view. -/
def isRevealedPC : PlayerCell → Bool
  | .Revealed => true
  | _ => false

/-- Boolean test for bomb content. -/
def isBomb : CellContent → Bool
  | .Bomb => true
  | _ => false

/-- Rust inclusive range `lo..=hi` over `usize`. -/
def rangeIncl (lo hi : Nat) : List Nat :=
  List.range' lo (hi + 1 - lo)

/-- `Gameboard::is_neighbour`: `(col2, row2)` is in the (saturated) closed
8-neighbourhood square of `(col1, row1)`. -/
def is_neighbour (col1 row1 col2 row2 : Nat) : Bool :=
  decide (col1 - 1 ≤ col2) && decide (col2 ≤ col1 + 1) &&
    decide (row1 - 1 ≤ row2) && decide (row2 ≤ row1 + 1)

/-- The clipped neighbourhood square iterated by `count_neighbor_bombs` and
`reveal_with_no_neighbors`: rows `row-1 ..= min (row+1) (rows-1)` outer,
columns `col-1 ..= min (col+1) (cols-1)` inner. -/
def Gameboard.neighborCoords (b : Gameboard) (col row : Nat) : List (Nat × Nat) :=
  (rangeIncl (row - 1) (min (row + 1) (b.size.2 - 1))).flatMap fun nr =>
    (rangeIncl (col - 1) (min (col + 1) (b.size.1 - 1))).map fun nc => (nc, nr)

/-- `Gameboard::count_neighbor_bombs`: bombs in the clipped neighbourhood
square of `(col, raw)` (the square includes the cell itself; the function is
only ever used on non-bomb cells). -/
def Gameboard.count_neighbor_bombs (b : Gameboard) (col raw : Nat) : Nat :=
  (b.neighborCoords col raw).countP fun p => isBomb (b.get_cell p.1 p.2).content

/-- Row-major enumeration of the full index space, rows outer, matching the
`for row in 0..size[1] { for col in 0..size[0] }` loops of the source. -/
def indexList (cols rows : Nat) : List (Nat × Nat) :=
  (List.range rows).flatMap fun r => (List.range cols).map fun c => (c, r)

/-- The index space of a board. -/
def Gameboard.idx (b : Gameboard) : List (Nat × Nat) :=
  indexList b.size.1 b.size.2

/-- Number of `Flagged` cells of the grid. -/
def flagCount (b : Gameboard) : Nat :=
  b.idx.countP fun p => isFlagged (b.get_cell p.1 p.2).player

/-- Number of bomb-content cells of the grid. -/
def bombCount (b : Gameboard) : Nat :=
  b.idx.countP fun p => isBomb (b.get_cell p.1 p.2).content

/-- Number of in-range cells not yet `Revealed` (the measure that shrinks
whenever the flood fill reveals a cell). -/
def unrevealedCount (b : Gameboard) : Nat :=
  b.idx.countP fun p => !(isRevealedPC (b.get_cell p.1 p.2).player)

/-- Well-formedness: the cell lists really form a `cols × rows` grid and the
grid is non-degenerate (guaranteed by `new`, whose assertion forces
`bombs < rows * cols`, hence positive dimensions). -/
def Gameboard.WF (b : Gameboard) : Prop :=
  b.cells.length = b.size.2 ∧
    (∀ i < b.size.2, (b.cells.getD i []).length = b.size.1) ∧
    0 < b.size.1 ∧ 0 < b.size.2

instance (b : Gameboard) : Decidable b.WF := by
  unfold Gameboard.WF; infer_instance

/-- The bomb-placement loop of `Gameboard::init`: while `placed < bombs`,
draw `(col, row)`; skip draws inside the exclusion square of the first
revealed cell `(rcol, rrow)` and draws that hit an existing bomb, otherwise
place a bomb.  `none` means the draw list was exhausted while the Rust loop
would still be running. -/
def placeBombs (rcol rrow : Nat) : List (Nat × Nat) → Nat → Gameboard → Option Gameboard
  | ds, placed, b =>
    if placed < b.bombs then
      match ds with
      | [] => none
      | (col, row) :: rest =>
        if is_neighbour rcol rrow col row then placeBombs rcol rrow rest placed b
        else
          match (b.get_cell col row).content with
          | .Nothing _ => placeBombs rcol rrow rest (placed + 1) (b.put_content col row .Bomb)
          | .Bomb => placeBombs rcol rrow rest placed b
    else some b

/-- One cell of the second loop of `Gameboard::init`: a non-bomb cell gets
its neighbour count recomputed, a bomb cell is left alone. -/
def compNStep (acc : Gameboard) (p : Nat × Nat) : Gameboard :=
  match (acc.get_cell p.1 p.2).content with
  | .Nothing _ => acc.put_content p.1 p.2 (.Nothing (acc.count_neighbor_bombs p.1 p.2))
  | .Bomb => acc

/-- The second loop of `Gameboard::init`: recompute the neighbour count of
every non-bomb cell, row-major. -/
def computeNeighbors (b : Gameboard) : Gameboard :=
  (indexList b.size.1 b.size.2).foldl compNStep b

/-- `Gameboard::init`: place the bombs, compute the neighbour counts, enter
`Alive`. -/
def Gameboard.init (ds : List (Nat × Nat)) (b : Gameboard) (rcol rrow : Nat) :
    Option Gameboard :=
  match placeBombs rcol rrow ds 0 b with
  | none => none
  | some b1 => some { computeNeighbors b1 with state := .Alive }

/-- One cell of the win scan of `Gameboard::update_state`, carrying the
running `(flagged, over)` pair. -/
def scanStep (b : Gameboard) (st : Nat × Bool) (p : Nat × Nat) : Nat × Bool :=
  match (b.get_cell p.1 p.2).player with
  | .Flagged => (st.1 + 1, if b.bombs < st.1 + 1 then false else st.2)
  | .Revealed => st
  | _ => (st.1, false)

/-- `Gameboard::update_state`: only does anything while `Alive`; a revealed
bomb at the touched cell means `Lost` (before any recount), otherwise the
whole grid is scanned, `flagged` refreshed, and `Won` entered when the scan
saw only `Revealed`/`Flagged` views with exactly `bombs` flags. -/
def Gameboard.update_state (b : Gameboard) (col row : Nat) : Gameboard :=
  if b.state = .Alive then
    if isRevealedPC (b.get_cell col row).player && isBomb (b.get_cell col row).content then
      { b with state := .Lost }
    else
      let res := (indexList b.size.1 b.size.2).foldl (scanStep b) (0, true)
      let b1 := { b with flagged := res.1 }
      if res.2 && (b1.flagged == b1.bombs) then { b1 with state := .Won } else b1
  else b

/-- The loop body of `Gameboard::reveal_with_no_neighbors` over an explicit
worklist of neighbour coordinates: skip `Revealed` cells, reveal the others,
and descend (through `descend`) into cells whose content is `Nothing(0)`. -/
def revealGo (descend : Gameboard → Nat → Nat → Option Gameboard) :
    Gameboard → List (Nat × Nat) → Option Gameboard
  | b, [] => some b
  | b, (nc, nr) :: rest =>
    if isRevealedPC (b.get_cell nc nr).player then revealGo descend b rest
    else
      match ((b.put_player nc nr .Revealed).get_cell nc nr).content with
      | .Nothing 0 =>
        match descend (b.put_player nc nr .Revealed) nc nr with
        | none => none
        | some b2 => revealGo descend b2 rest
      | _ => revealGo descend (b.put_player nc nr .Revealed) rest

/-- The recursion of `Gameboard::reveal_with_no_neighbors`, with an explicit
depth budget standing for the Rust call stack: each recursive descent into a
zero-content cell consumes one unit.  `none` means the budget ran out (the
budget `cols*rows + 1` is proved sufficient below). -/
def revealDescend : Nat → Gameboard → Nat → Nat → Option Gameboard
  | 0, _, _, _ => none
  | fuel + 1, b, col, row => revealGo (revealDescend fuel) b (b.neighborCoords col row)

/-- `Gameboard::reveal_with_no_neighbors` as a total function: run the
recursion with the sufficient budget. -/
def Gameboard.reveal_with_no_neighbors (b : Gameboard) (col row : Nat) : Gameboard :=
  (revealDescend (b.size.1 * b.size.2 + 1) b col row).getD b

/-- `Gameboard::set`, the single player-intent entry point.  The draw list
`ds` feeds `init` on the first reveal; `none` propagates the case in which
the Rust placement loop never terminates. -/
def Gameboard.set (ds : List (Nat × Nat)) (b : Gameboard) (col row : Nat)
    (val : PlayerCell) : Option Gameboard :=
  if b.state = .Initial then
    match val with
    | .Revealed =>
      match (b.put_player col row .Revealed).init ds col row with
      | none => none
      | some b2 =>
        match (b2.get_cell col row).content with
        | .Nothing 0 => some (b2.reveal_with_no_neighbors col row)
        | _ => some b2
    | _ => some b
  else if b.state = .Alive then
    if isFlagged val && decide (b.bombs ≤ b.flagged) then some b
    else if isRevealedPC (b.get_cell col row).player then some b
    else
      match val, ((b.put_player col row val).get_cell col row).content with
      | .Revealed, .Nothing 0 =>
        some (((b.put_player col row val).reveal_with_no_neighbors col row).update_state col row)
      | _, _ => some ((b.put_player col row val).update_state col row)
  else some b

/-- The right-click intent of `GameboardController::event`: cycle the
player view `NotDetermined → Flagged → Question → NotDetermined`, doing
nothing on a `Revealed` cell.  (`set` with a non-`Revealed` value never
consults the random draws, so none are passed.) -/
def Gameboard.annotate_cycle (b : Gameboard) (col row : Nat) : Option Gameboard :=
  match (b.get_cell col row).player with
  | .NotDetermined => b.set [] col row .Flagged
  | .Flagged => b.set [] col row .Question
  | .Question => b.set [] col row .NotDetermined
  | .Revealed => some b

/-- Board states reachable from construction through in-range reveal and
annotate-cycle intents (the two intents `GameboardController::event` can
issue), with arbitrary in-range random draws. -/
inductive Reachable : Gameboard → Prop
  | construct (cols rows bombs : Nat) (h : bombs < cols * rows) :
      Reachable (Gameboard.new cols rows bombs)
  | reveal (b : Gameboard) (ds : List (Nat × Nat)) (col row : Nat) (b' : Gameboard)
      (hb : Reachable b) (hc : col < b.size.1) (hr : row < b.size.2)
      (hds : ∀ d ∈ ds, d.1 < b.size.1 ∧ d.2 < b.size.2)
      (hset : b.set ds col row .Revealed = some b') : Reachable b'
  | annotate (b : Gameboard) (col row : Nat) (b' : Gameboard)
      (hb : Reachable b) (hc : col < b.size.1) (hr : row < b.size.2)
      (hset : b.annotate_cycle col row = some b') : Reachable b'

/-- Both boards lay out their cells identically (sizes and row lengths). -/
def sameShape (b b' : Gameboard) : Prop :=
  b'.size = b.size ∧ b'.cells.length = b.cells.length ∧
    ∀ i, (b'.cells.getD i []).length = (b.cells.getD i []).length

/-- What one (or many) flood-fill steps can do to a board: the layout,
contents and scalar fields are untouched, and player views only ever move to
`Revealed`. -/
structure CascStep (b b' : Gameboard) : Prop where
  shape : sameShape b b'
  bombs_eq : b'.bombs = b.bombs
  flagged_eq : b'.flagged = b.flagged
  state_eq : b'.state = b.state
  content_eq : ∀ c r, (b'.get_cell c r).content = (b.get_cell c r).content
  player_mono : ∀ c r, (b'.get_cell c r).player = (b.get_cell c r).player ∨
    (b'.get_cell c r).player = .Revealed

/-- No bomb-content cell is `Revealed` (out-of-range reads are `Nothing`, so
the quantifier ranges effectively over the grid). -/
def noRevealedBombs (b : Gameboard) : Prop :=
  ∀ c r, (b.get_cell c r).content = .Bomb → (b.get_cell c r).player ≠ .Revealed

/-- Every in-range non-bomb cell stores the bomb count of its clipped
neighbourhood square. -/
def consistentB (b : Gameboard) : Prop :=
  ∀ c r, c < b.size.1 → r < b.size.2 → ∀ n, (b.get_cell c r).content = .Nothing n →
    n = b.count_neighbor_bombs c r

/-- The player views the win scan accepts: `Flagged` or `Revealed`. -/
def cellDone : PlayerCell → Bool
  | .Flagged => true
  | .Revealed => true
  | _ => false

/-- Every in-range cell is `Flagged` or `Revealed`. -/
def allRF (b : Gameboard) : Bool :=
  b.idx.all fun p => cellDone (b.get_cell p.1 p.2).player

/-- What bomb placement can do to a board: layout, scalar fields and all
player views are untouched (only cell contents change). -/
structure PlacePres (b b' : Gameboard) : Prop where
  shape : sameShape b b'
  bombs_eq : b'.bombs = b.bombs
  flagged_eq : b'.flagged = b.flagged
  state_eq : b'.state = b.state
  player_eq : ∀ c r, (b'.get_cell c r).player = (b.get_cell c r).player

/-- The state invariant maintained by every reachable board: well-formed
grid; pristine grid while `Initial`; consistent neighbour counts once the
bombs exist; accurate `flagged` counter and no revealed bomb while the game
is not lost. -/
def EngineInv (b : Gameboard) : Prop :=
  b.WF ∧
    (b.state = .Initial → b.flagged = 0 ∧ ∀ c r, b.get_cell c r = default) ∧
    (b.state ≠ .Initial → consistentB b) ∧
    (b.state ≠ .Lost → b.flagged = flagCount b) ∧
    (b.state ≠ .Lost → noRevealedBombs b)

/-- The count of bombs among the strict in-bounds 8-neighbours of a cell
(the spec-level quantity: the cell itself is excluded). -/
def bombNeighbors8 (b : Gameboard) (col row : Nat) : Nat :=
  ((b.neighborCoords col row).filter fun p => !(p == (col, row))).countP
    fun p => isBomb (b.get_cell p.1 p.2).content

/-- The 5×1 one-bomb board after the first reveal at (0,0), the bomb having
been drawn at (3,0): cells 0-2 revealed, the bomb and cell 4 untouched. -/
def board51 : Gameboard :=
  ((Gameboard.new 5 1 1).set [(3, 0)] 0 0 .Revealed).getD (Gameboard.new 5 1 1)

/-- `board51` with the bomb cell (3,0) flagged. -/
def board51f : Gameboard := (board51.annotate_cycle 3 0).getD board51

/-- `board51f` after revealing the flagged bomb: the game is `Lost`, the
flag is overwritten, but `flagged` was not recounted. -/
def board51lost : Gameboard := (board51f.set [] 3 0 .Revealed).getD board51f

/-- A lost 2×2 board. -/
def lostBoard : Gameboard := { Gameboard.new 2 2 1 with state := .Lost }

/-- A 2×2 board with one already revealed cell. -/
def c8board : Gameboard :=
  { size := (2, 2), bombs := 1, flagged := 0, state := .Alive,
    cells := [[⟨.NotDetermined, .Nothing 0⟩, ⟨.NotDetermined, .Nothing 0⟩],
      [⟨.NotDetermined, .Nothing 0⟩, ⟨.Revealed, .Nothing 1⟩]] }

/-- An `Alive` 2×2 board whose flag budget (1) is exhausted. -/
def c9board : Gameboard := { Gameboard.new 2 2 1 with state := .Alive, flagged := 1 }

/-- The 3×3 one-bomb board after a completed first reveal at (0,0) with the
bomb drawn at (2,2). -/
def board33 : Gameboard :=
  ((Gameboard.new 3 3 1).set [(2, 2)] 0 0 .Revealed).getD (Gameboard.new 3 3 1)

/-- An `Alive` 2×1 board: a revealed count-1 cell next to the unflagged
bomb (one flag away from the win). -/
def wonReadyBoard : Gameboard :=
  { size := (2, 1), bombs := 1, flagged := 0, state := .Alive,
    cells := [[⟨.Revealed, .Nothing 1⟩, ⟨.NotDetermined, .Bomb⟩]] }

/-- The 1×1 zero-bomb board after its first (and only possible) reveal. -/
def c3oneone : Gameboard :=
  ((Gameboard.new 1 1 0).set [] 0 0 .Revealed).getD (Gameboard.new 1 1 0)

/-- `board51` with the harmless cell (4,0) wrongly flagged. -/
def board51w : Gameboard := (board51.annotate_cycle 4 0).getD board51

/-- `board51w` after revealing the bomb at (3,0): every cell is now
`Revealed` or `Flagged` with exactly one flag, yet the game is `Lost`. -/
def board51wlost : Gameboard := (board51w.set [] 3 0 .Revealed).getD board51w

/-- `wonReadyBoard` after flagging the bomb: the winning intent. -/
def wonBoard : Gameboard := (wonReadyBoard.set [] 1 0 .Flagged).getD wonReadyBoard

-- ## Theorems

theorem listGetD_set_self {α : Type} (l : List α) (n : Nat) (a d : α) (h : n < l.length) :
    (l.set n a).getD n d = a := by
  simp [List.getD_eq_getElem?_getD, List.getElem?_set_self h]

theorem listGetD_set_ne {α : Type} (l : List α) {m n : Nat} (a d : α) (h : m ≠ n) :
    (l.set m a).getD n d = l.getD n d := by
  simp [List.getD_eq_getElem?_getD, List.getElem?_set_ne h]

theorem listSet_getD_self {α : Type} (l : List α) (n : Nat) (d : α) (h : n < l.length) :
    l.set n (l.getD n d) = l := by
  induction l generalizing n with
  | nil => simp at h
  | cons x xs ih =>
    cases n with
    | zero => simp [List.getD]
    | succ m =>
      simp only [List.length_cons, Nat.succ_lt_succ_iff] at h
      show x :: xs.set m (xs.getD m d) = x :: xs
      rw [ih m h]

theorem countP_update {α : Type} [DecidableEq α] {l : List α} (hl : l.Nodup)
    {a : α} (ha : a ∈ l) (p q : α → Bool) (h : ∀ x ∈ l, x ≠ a → p x = q x) :
    l.countP q + (if p a then 1 else 0) = l.countP p + (if q a then 1 else 0) := by
  induction l with
  | nil => simp at ha
  | cons x xs ih =>
    rcases List.mem_cons.mp ha with rfl | hmem
    · have hxs : ∀ y ∈ xs, p y = q y := by
        intro y hy
        exact h y (List.mem_cons_of_mem _ hy) (fun hya => (List.nodup_cons.mp hl).1 (hya ▸ hy))
      have hcnt : List.countP p xs = List.countP q xs :=
        List.countP_congr (fun y hy => by rw [hxs y hy])
      rw [List.countP_cons, List.countP_cons, hcnt]
      omega
    · have hx : p x = q x :=
        h x (List.mem_cons_self x xs) (fun hxa => (List.nodup_cons.mp hl).1 (hxa ▸ hmem))
      rw [List.countP_cons, List.countP_cons, hx]
      have := ih (List.nodup_cons.mp hl).2 hmem (fun y hy hya => h y (List.mem_cons_of_mem _ hy) hya)
      omega

theorem mem_rangeIncl {lo hi m : Nat} : m ∈ rangeIncl lo hi ↔ lo ≤ m ∧ m ≤ hi := by
  unfold rangeIncl
  rw [List.mem_range'_1]
  omega

theorem mem_indexList {cols rows : Nat} {p : Nat × Nat} :
    p ∈ indexList cols rows ↔ p.1 < cols ∧ p.2 < rows := by
  unfold indexList
  simp only [List.mem_flatMap, List.mem_map, List.mem_range]
  constructor
  · rintro ⟨r, hr, c, hc, rfl⟩; exact ⟨hc, hr⟩
  · rintro ⟨h1, h2⟩; exact ⟨p.2, h2, p.1, h1, rfl⟩

theorem nodup_indexList (cols rows : Nat) : (indexList cols rows).Nodup := by
  unfold indexList
  rw [List.nodup_flatMap]
  refine ⟨fun r _ => ?_, ?_⟩
  · have hinj : Function.Injective (fun c => ((c, r) : Nat × Nat)) := by
      intro a b hab
      simpa using congrArg Prod.fst hab
    exact (List.nodup_range cols).map hinj
  · refine List.Pairwise.imp ?_ (List.nodup_range rows)
    intro a b hab
    intro x hxa hxb
    simp only [Function.comp, List.mem_map, List.mem_range] at hxa hxb
    obtain ⟨c1, _, rfl⟩ := hxa
    obtain ⟨c2, _, h2⟩ := hxb
    have hba : b = a := by simpa using congrArg Prod.snd h2
    exact hab hba.symm

theorem getD_replicate {α : Type} {n i : Nat} (a d : α) (h : i < n) :
    (List.replicate n a).getD i d = a := by
  simp [List.getD_eq_getElem?_getD, List.getElem?_replicate, h]

theorem get_cell_modify_self (b : Gameboard) (col row : Nat) (f : Cell → Cell)
    (hr : row < b.cells.length) (hc : col < (b.cells.getD row []).length) :
    (b.modify_cell col row f).get_cell col row = f (b.get_cell col row) := by
  unfold Gameboard.modify_cell Gameboard.get_cell
  simp only
  rw [listGetD_set_self _ _ _ _ (by simpa using hr), listGetD_set_self _ _ _ _ hc]

theorem get_cell_modify_ne (b : Gameboard) (col row : Nat) (f : Cell → Cell)
    {c r : Nat} (h : (c, r) ≠ (col, row)) :
    (b.modify_cell col row f).get_cell c r = b.get_cell c r := by
  unfold Gameboard.modify_cell Gameboard.get_cell
  simp only
  by_cases hrow : row = r
  · subst hrow
    have hcol : col ≠ c := fun hh => h (by rw [hh])
    by_cases hlen : row < b.cells.length
    · rw [listGetD_set_self _ _ _ _ hlen, listGetD_set_ne _ _ _ hcol]
    · rw [List.set_eq_of_length_le (Nat.le_of_not_lt hlen)]
  · rw [listGetD_set_ne _ _ _ hrow]

theorem modify_cell_oob (b : Gameboard) (col row : Nat) (f : Cell → Cell)
    (h : ¬(row < b.cells.length ∧ col < (b.cells.getD row []).length)) :
    b.modify_cell col row f = b := by
  unfold Gameboard.modify_cell
  by_cases hrow : row < b.cells.length
  · have hcol : ¬ col < (b.cells.getD row []).length := fun hc => h ⟨hrow, hc⟩
    rw [List.set_eq_of_length_le (Nat.le_of_not_lt hcol), listSet_getD_self _ _ _ hrow]
  · rw [List.set_eq_of_length_le (Nat.le_of_not_lt hrow)]

@[simp] theorem modify_cell_size (b : Gameboard) (col row : Nat) (f : Cell → Cell) :
    (b.modify_cell col row f).size = b.size := rfl

@[simp] theorem modify_cell_bombs (b : Gameboard) (col row : Nat) (f : Cell → Cell) :
    (b.modify_cell col row f).bombs = b.bombs := rfl

@[simp] theorem modify_cell_flagged (b : Gameboard) (col row : Nat) (f : Cell → Cell) :
    (b.modify_cell col row f).flagged = b.flagged := rfl

@[simp] theorem modify_cell_state (b : Gameboard) (col row : Nat) (f : Cell → Cell) :
    (b.modify_cell col row f).state = b.state := rfl

theorem sameShape_refl (b : Gameboard) : sameShape b b :=
  ⟨rfl, rfl, fun _ => rfl⟩

theorem sameShape_trans {a b c : Gameboard} (h1 : sameShape a b) (h2 : sameShape b c) :
    sameShape a c :=
  ⟨h2.1.trans h1.1, h2.2.1.trans h1.2.1, fun i => (h2.2.2 i).trans (h1.2.2 i)⟩

theorem sameShape_modify (b : Gameboard) (col row : Nat) (f : Cell → Cell) :
    sameShape b (b.modify_cell col row f) := by
  refine ⟨rfl, by simp [Gameboard.modify_cell], fun i => ?_⟩
  unfold Gameboard.modify_cell
  simp only
  by_cases hrow : row = i
  · subst hrow
    by_cases hlen : row < b.cells.length
    · rw [listGetD_set_self _ _ _ _ hlen, List.length_set]
    · rw [List.set_eq_of_length_le (Nat.le_of_not_lt hlen)]
  · rw [listGetD_set_ne _ _ _ hrow]

theorem WF_of_sameShape {b b' : Gameboard} (h : sameShape b b') (hwf : b.WF) : b'.WF := by
  obtain ⟨hsz, hlen, hrows⟩ := h
  obtain ⟨h1, h2, h3, h4⟩ := hwf
  refine ⟨?_, ?_, ?_, ?_⟩
  · rw [hlen, hsz, h1]
  · intro i hi
    rw [hsz] at hi
    rw [hrows i, hsz, h2 i hi]
  · rw [hsz]; exact h3
  · rw [hsz]; exact h4

theorem WF_new {cols rows bombs : Nat} (h : bombs < cols * rows) :
    (Gameboard.new cols rows bombs).WF := by
  have hc : 0 < cols := by
    rcases Nat.eq_zero_or_pos cols with hz | hp
    · subst hz; simp at h
    · exact hp
  have hr : 0 < rows := by
    rcases Nat.eq_zero_or_pos rows with hz | hp
    · subst hz; simp at h
    · exact hp
  refine ⟨by simp [Gameboard.new], ?_, hc, hr⟩
  intro i hi
  simp only [Gameboard.new] at hi ⊢
  rw [getD_replicate _ _ hi, List.length_replicate]

theorem WF_in_range {b : Gameboard} (hwf : b.WF) {col row : Nat}
    (hc : col < b.size.1) (hr : row < b.size.2) :
    row < b.cells.length ∧ col < (b.cells.getD row []).length := by
  obtain ⟨h1, h2, _, _⟩ := hwf
  exact ⟨h1 ▸ hr, (h2 row hr) ▸ hc⟩

theorem idx_congr {b b' : Gameboard} (h : b'.size = b.size) : b'.idx = b.idx := by
  unfold Gameboard.idx
  rw [h]

/-- Generic one-cell update rule for the index-space counters. -/
theorem count_pointwise_update (b b' : Gameboard) (hsz : b'.size = b.size)
    {col row : Nat} (hc : col < b.size.1) (hr : row < b.size.2) (g : Cell → Bool)
    (hagree : ∀ c r, (c, r) ≠ (col, row) → b'.get_cell c r = b.get_cell c r) :
    b'.idx.countP (fun p => g (b'.get_cell p.1 p.2)) + (if g (b.get_cell col row) then 1 else 0) =
      b.idx.countP (fun p => g (b.get_cell p.1 p.2)) +
        (if g (b'.get_cell col row) then 1 else 0) := by
  rw [idx_congr hsz]
  have hmem : ((col, row) : Nat × Nat) ∈ b.idx := mem_indexList.mpr ⟨hc, hr⟩
  have := countP_update (l := b.idx) (nodup_indexList _ _) hmem
    (fun p => g (b.get_cell p.1 p.2)) (fun p => g (b'.get_cell p.1 p.2))
    (fun x _ hx => by simp [hagree x.1 x.2 (by simpa using hx)])
  simpa using this

/-- Pointwise-equal grids (through `g`) have equal counters. -/
theorem count_pointwise_congr (b b' : Gameboard) (hsz : b'.size = b.size) (g : Cell → Bool)
    (hagree : ∀ c r, g (b'.get_cell c r) = g (b.get_cell c r)) :
    b'.idx.countP (fun p => g (b'.get_cell p.1 p.2)) =
      b.idx.countP (fun p => g (b.get_cell p.1 p.2)) := by
  rw [idx_congr hsz]
  exact List.countP_congr (fun x _ => by rw [hagree x.1 x.2])

theorem cell_eq_of {x y : Cell} (h1 : x.player = y.player) (h2 : x.content = y.content) :
    x = y := by
  cases x; cases y; simp_all

theorem get_cell_put_player_self {b : Gameboard} (hwf : b.WF) {col row : Nat}
    (hc : col < b.size.1) (hr : row < b.size.2) (v : PlayerCell) :
    (b.put_player col row v).get_cell col row =
      { player := v, content := (b.get_cell col row).content } := by
  obtain ⟨h1, h2⟩ := WF_in_range hwf hc hr
  unfold Gameboard.put_player
  rw [get_cell_modify_self b col row _ h1 h2]

theorem get_cell_put_player_ne (b : Gameboard) (col row : Nat) (v : PlayerCell)
    {c r : Nat} (h : (c, r) ≠ (col, row)) :
    (b.put_player col row v).get_cell c r = b.get_cell c r :=
  get_cell_modify_ne b col row _ h

theorem content_put_player (b : Gameboard) (col row : Nat) (v : PlayerCell) (c r : Nat) :
    ((b.put_player col row v).get_cell c r).content = (b.get_cell c r).content := by
  by_cases hcr : (c, r) = (col, row)
  · obtain ⟨rfl, rfl⟩ := Prod.mk.injEq .. ▸ Prod.ext_iff.mp hcr
    by_cases hib : row < b.cells.length ∧ col < (b.cells.getD row []).length
    · unfold Gameboard.put_player
      rw [get_cell_modify_self b col row _ hib.1 hib.2]
    · unfold Gameboard.put_player
      rw [modify_cell_oob b col row _ hib]
  · rw [get_cell_put_player_ne b col row v hcr]

theorem player_put_player_mono (b : Gameboard) (col row : Nat) (v : PlayerCell) (c r : Nat) :
    ((b.put_player col row v).get_cell c r).player = (b.get_cell c r).player ∨
      ((b.put_player col row v).get_cell c r).player = v := by
  by_cases hcr : (c, r) = (col, row)
  · obtain ⟨rfl, rfl⟩ := Prod.mk.injEq .. ▸ Prod.ext_iff.mp hcr
    by_cases hib : row < b.cells.length ∧ col < (b.cells.getD row []).length
    · unfold Gameboard.put_player
      rw [get_cell_modify_self b col row _ hib.1 hib.2]
      exact Or.inr rfl
    · unfold Gameboard.put_player
      rw [modify_cell_oob b col row _ hib]
      exact Or.inl rfl
  · rw [get_cell_put_player_ne b col row v hcr]
    exact Or.inl rfl

theorem content_put_content_ne (b : Gameboard) (col row : Nat) (v : CellContent)
    {c r : Nat} (h : (c, r) ≠ (col, row)) :
    (b.put_content col row v).get_cell c r = b.get_cell c r :=
  get_cell_modify_ne b col row _ h

theorem get_cell_put_content_self {b : Gameboard} (hwf : b.WF) {col row : Nat}
    (hc : col < b.size.1) (hr : row < b.size.2) (v : CellContent) :
    (b.put_content col row v).get_cell col row =
      { player := (b.get_cell col row).player, content := v } := by
  obtain ⟨h1, h2⟩ := WF_in_range hwf hc hr
  unfold Gameboard.put_content
  rw [get_cell_modify_self b col row _ h1 h2]

theorem player_put_content (b : Gameboard) (col row : Nat) (v : CellContent) (c r : Nat) :
    ((b.put_content col row v).get_cell c r).player = (b.get_cell c r).player := by
  by_cases hcr : (c, r) = (col, row)
  · obtain ⟨rfl, rfl⟩ := Prod.mk.injEq .. ▸ Prod.ext_iff.mp hcr
    by_cases hib : row < b.cells.length ∧ col < (b.cells.getD row []).length
    · unfold Gameboard.put_content
      rw [get_cell_modify_self b col row _ hib.1 hib.2]
    · unfold Gameboard.put_content
      rw [modify_cell_oob b col row _ hib]
  · rw [content_put_content_ne b col row v hcr]

theorem CascStep.casc_refl (b : Gameboard) : CascStep b b :=
  ⟨sameShape_refl b, rfl, rfl, rfl, fun _ _ => rfl, fun _ _ => Or.inl rfl⟩

theorem CascStep.casc_trans {a b c : Gameboard} (h1 : CascStep a b) (h2 : CascStep b c) :
    CascStep a c := by
  refine ⟨sameShape_trans h1.shape h2.shape, h2.bombs_eq.trans h1.bombs_eq,
    h2.flagged_eq.trans h1.flagged_eq, h2.state_eq.trans h1.state_eq,
    fun cc rr => (h2.content_eq cc rr).trans (h1.content_eq cc rr), fun cc rr => ?_⟩
  rcases h2.player_mono cc rr with h | h
  · rw [h]; exact h1.player_mono cc rr
  · exact Or.inr h

theorem CascStep.put_revealed (b : Gameboard) (col row : Nat) :
    CascStep b (b.put_player col row .Revealed) :=
  ⟨sameShape_modify b col row _, rfl, rfl, rfl, content_put_player b col row _,
    player_put_player_mono b col row _⟩

theorem CascStep.revealed_keep {b b' : Gameboard} (h : CascStep b b') {c r : Nat}
    (hrev : (b.get_cell c r).player = .Revealed) : b'.get_cell c r = b.get_cell c r := by
  refine cell_eq_of ?_ (h.content_eq c r)
  rcases h.player_mono c r with hp | hp
  · exact hp
  · rw [hp, hrev]

theorem CascStep.unrevealed_le {b b' : Gameboard} (h : CascStep b b') :
    unrevealedCount b' ≤ unrevealedCount b := by
  unfold unrevealedCount
  rw [idx_congr h.shape.1]
  apply List.countP_mono_left
  intro p _ hp
  rcases h.player_mono p.1 p.2 with hq | hq
  · rwa [hq] at hp
  · rw [hq] at hp
    simp [isRevealedPC] at hp

theorem mem_neighborCoords {b : Gameboard} {col row : Nat} {p : Nat × Nat} :
    p ∈ b.neighborCoords col row ↔
      is_neighbour col row p.1 p.2 = true ∧ p.1 ≤ b.size.1 - 1 ∧ p.2 ≤ b.size.2 - 1 := by
  unfold Gameboard.neighborCoords is_neighbour
  simp only [List.mem_flatMap, List.mem_map, mem_rangeIncl, Bool.and_eq_true,
    decide_eq_true_eq]
  constructor
  · rintro ⟨nr, ⟨hr1, hr2⟩, nc, ⟨hc1, hc2⟩, rfl⟩
    simp only [Nat.le_min] at hr2 hc2
    exact ⟨⟨⟨⟨hc1, hc2.1⟩, hr1⟩, hr2.1⟩, hc2.2, hr2.2⟩
  · rintro ⟨⟨⟨⟨hc1, hc2⟩, hr1⟩, hr2⟩, hcb, hrb⟩
    exact ⟨p.2, ⟨hr1, Nat.le_min.mpr ⟨hr2, hrb⟩⟩, p.1, ⟨hc1, Nat.le_min.mpr ⟨hc2, hcb⟩⟩, rfl⟩

theorem neighborCoords_in_range {b : Gameboard} (hwf : b.WF) {col row : Nat}
    {p : Nat × Nat} (hp : p ∈ b.neighborCoords col row) :
    p.1 < b.size.1 ∧ p.2 < b.size.2 := by
  obtain ⟨_, hc, hr⟩ := mem_neighborCoords.mp hp
  obtain ⟨_, _, h1, h2⟩ := hwf
  omega

theorem unrevealedCount_put_revealed {b : Gameboard} (hwf : b.WF) {col row : Nat}
    (hc : col < b.size.1) (hr : row < b.size.2)
    (hunrev : ¬ isRevealedPC (b.get_cell col row).player = true) :
    unrevealedCount (b.put_player col row .Revealed) + 1 = unrevealedCount b := by
  have h := count_pointwise_update b (b.put_player col row .Revealed) rfl hc hr
    (fun c => !(isRevealedPC c.player))
    (fun c r hcr => get_cell_put_player_ne b col row _ hcr)
  rw [get_cell_put_player_self hwf hc hr] at h
  simp only [Bool.not_eq_true] at hunrev
  rw [if_pos (by simp [hunrev]), if_neg (by simp [isRevealedPC])] at h
  unfold unrevealedCount
  simpa using h

theorem revealGo_step (descend : Gameboard → Nat → Nat → Option Gameboard)
    (hd : ∀ bb cc rr bb', descend bb cc rr = some bb' → CascStep bb bb') :
    ∀ (l : List (Nat × Nat)) (bb bb' : Gameboard),
      revealGo descend bb l = some bb' → CascStep bb bb' := by
  intro l
  induction l with
  | nil =>
    intro bb bb' h
    rw [revealGo] at h
    cases h
    exact CascStep.casc_refl _
  | cons q rest ih =>
    intro bb bb' h
    obtain ⟨nc, nr⟩ := q
    rw [revealGo] at h
    by_cases hrev : isRevealedPC (bb.get_cell nc nr).player = true
    · rw [if_pos hrev] at h
      exact ih bb bb' h
    · rw [if_neg hrev] at h
      have step1 : CascStep bb (bb.put_player nc nr .Revealed) :=
        CascStep.put_revealed bb nc nr
      rcases hcont : ((bb.put_player nc nr .Revealed).get_cell nc nr).content with n | _
      · rcases n with _ | m
        · rw [hcont] at h
          simp only at h
          rcases hdesc : descend (bb.put_player nc nr .Revealed) nc nr with _ | b2
          · rw [hdesc] at h
            exact absurd h (by simp)
          · rw [hdesc] at h
            simp only at h
            exact step1.casc_trans ((hd _ _ _ _ hdesc).casc_trans (ih b2 bb' h))
        · rw [hcont] at h
          simp only at h
          exact step1.casc_trans (ih _ bb' h)
      · rw [hcont] at h
        simp only at h
        exact step1.casc_trans (ih _ bb' h)

theorem revealDescend_step :
    ∀ (fuel : Nat) (bb : Gameboard) (cc rr : Nat) (bb' : Gameboard),
      revealDescend fuel bb cc rr = some bb' → CascStep bb bb' := by
  intro fuel
  induction fuel with
  | zero =>
    intro bb cc rr bb' h
    rw [revealDescend] at h
    exact absurd h (by simp)
  | succ n ih =>
    intro bb cc rr bb' h
    rw [revealDescend] at h
    exact revealGo_step _ ih _ _ _ h

theorem reveal_step (b : Gameboard) (col row : Nat) :
    CascStep b (b.reveal_with_no_neighbors col row) := by
  unfold Gameboard.reveal_with_no_neighbors
  rcases hdesc : revealDescend (b.size.1 * b.size.2 + 1) b col row with _ | b'
  · simpa using CascStep.casc_refl b
  · simpa using revealDescend_step _ _ _ _ _ hdesc

theorem length_indexList (cols rows : Nat) : (indexList cols rows).length = cols * rows := by
  unfold indexList
  rw [List.length_flatMap]
  have h : (List.map (List.length ∘ fun r => (List.range cols).map fun c => (c, r))
      (List.range rows)) = List.replicate rows cols := by
    refine List.eq_replicate_iff.mpr ⟨by simp, ?_⟩
    intro x hx
    simp only [List.mem_map] at hx
    obtain ⟨r, _, rfl⟩ := hx
    simp [Function.comp]
  rw [h, List.sum_replicate, smul_eq_mul, Nat.mul_comm]

theorem unrevealedCount_le (b : Gameboard) : unrevealedCount b ≤ b.size.1 * b.size.2 := by
  unfold unrevealedCount Gameboard.idx
  calc List.countP _ (indexList b.size.1 b.size.2) ≤ (indexList b.size.1 b.size.2).length :=
        List.countP_le_length _
    _ = b.size.1 * b.size.2 := length_indexList _ _

theorem revealGo_some (fuel : Nat)
    (ihd : ∀ bb cc rr, bb.WF → unrevealedCount bb < fuel →
      (revealDescend fuel bb cc rr).isSome = true) :
    ∀ (l : List (Nat × Nat)) (bb : Gameboard), bb.WF →
      (∀ p ∈ l, p.1 < bb.size.1 ∧ p.2 < bb.size.2) → unrevealedCount bb ≤ fuel →
      (revealGo (revealDescend fuel) bb l).isSome = true := by
  intro l
  induction l with
  | nil =>
    intro bb _ _ _
    rw [revealGo]
    rfl
  | cons q rest ih =>
    intro bb hwf hl hu
    obtain ⟨nc, nr⟩ := q
    rw [revealGo]
    by_cases hrev : isRevealedPC (bb.get_cell nc nr).player = true
    · rw [if_pos hrev]
      exact ih bb hwf (fun p hp => hl p (List.mem_cons_of_mem _ hp)) hu
    · rw [if_neg hrev]
      have hin := hl (nc, nr) (List.mem_cons_self _ _)
      have hu1 : unrevealedCount (bb.put_player nc nr .Revealed) + 1 = unrevealedCount bb :=
        unrevealedCount_put_revealed hwf hin.1 hin.2 hrev
      have hwf1 : (bb.put_player nc nr .Revealed).WF :=
        WF_of_sameShape (sameShape_modify _ _ _ _) hwf
      split
      · have hd : (revealDescend fuel (bb.put_player nc nr .Revealed) nc nr).isSome = true :=
          ihd _ nc nr hwf1 (by omega)
        obtain ⟨b2, hb2⟩ := Option.isSome_iff_exists.mp hd
        simp only [hb2]
        have step := revealDescend_step fuel _ nc nr b2 hb2
        have hsz2 : b2.size = bb.size := step.shape.1
        refine ih b2 (WF_of_sameShape step.shape hwf1) (fun p hp => ?_) ?_
        · rw [hsz2]
          exact hl p (List.mem_cons_of_mem _ hp)
        · have h2 := step.unrevealed_le
          omega
      · refine ih _ hwf1 (fun p hp => hl p (List.mem_cons_of_mem _ hp)) (by omega)

theorem revealDescend_some :
    ∀ (fuel : Nat) (bb : Gameboard) (cc rr : Nat), bb.WF → unrevealedCount bb < fuel →
      (revealDescend fuel bb cc rr).isSome = true := by
  intro fuel
  induction fuel with
  | zero =>
    intro bb cc rr _ h
    omega
  | succ n ih =>
    intro bb cc rr hwf hu
    rw [revealDescend]
    exact revealGo_some n ih _ bb hwf (fun p hp => neighborCoords_in_range hwf hp) (by omega)

theorem reveal_with_no_neighbors_eq {b : Gameboard} (hwf : b.WF) (col row : Nat) :
    revealDescend (b.size.1 * b.size.2 + 1) b col row =
      some (b.reveal_with_no_neighbors col row) := by
  have h := revealDescend_some (b.size.1 * b.size.2 + 1) b col row hwf
    (by have := unrevealedCount_le b; omega)
  obtain ⟨b', hb'⟩ := Option.isSome_iff_exists.mp h
  unfold Gameboard.reveal_with_no_neighbors
  rw [hb']
  rfl

theorem count_neighbor_bombs_congr {b b' : Gameboard} (hsz : b'.size = b.size)
    (h : ∀ c r, isBomb (b'.get_cell c r).content = isBomb (b.get_cell c r).content)
    (col row : Nat) :
    b'.count_neighbor_bombs col row = b.count_neighbor_bombs col row := by
  unfold Gameboard.count_neighbor_bombs
  have hnb : b'.neighborCoords col row = b.neighborCoords col row := by
    unfold Gameboard.neighborCoords
    rw [hsz]
  rw [hnb]
  exact List.countP_congr (fun p _ => by rw [h p.1 p.2])

theorem consistentB_congr {b b' : Gameboard} (h : consistentB b) (hsz : b'.size = b.size)
    (hcont : ∀ c r, (b'.get_cell c r).content = (b.get_cell c r).content) : consistentB b' := by
  intro c r hc hr n hn
  rw [hsz] at hc hr
  rw [count_neighbor_bombs_congr hsz (fun cc rr => by rw [hcont cc rr])]
  exact h c r hc hr n (by rw [← hcont c r]; exact hn)

theorem no_bombs_of_count_zero {b : Gameboard} {col row : Nat}
    (h : b.count_neighbor_bombs col row = 0) {p : Nat × Nat}
    (hp : p ∈ b.neighborCoords col row) : (b.get_cell p.1 p.2).content ≠ .Bomb := by
  unfold Gameboard.count_neighbor_bombs at h
  have hz := List.countP_eq_zero.mp h p hp
  intro hbomb
  rw [hbomb] at hz
  simp [isBomb] at hz

theorem revealGo_safe (fuel : Nat)
    (ihd : ∀ bb cc rr bb', bb.WF → consistentB bb → noRevealedBombs bb →
      cc < bb.size.1 → rr < bb.size.2 → (bb.get_cell cc rr).content = .Nothing 0 →
      revealDescend fuel bb cc rr = some bb' → noRevealedBombs bb') :
    ∀ (l : List (Nat × Nat)) (bb bb' : Gameboard), bb.WF → consistentB bb →
      noRevealedBombs bb →
      (∀ p ∈ l, p.1 < bb.size.1 ∧ p.2 < bb.size.2 ∧ (bb.get_cell p.1 p.2).content ≠ .Bomb) →
      revealGo (revealDescend fuel) bb l = some bb' → noRevealedBombs bb' := by
  intro l
  induction l with
  | nil =>
    intro bb bb' _ _ hnrb _ h
    rw [revealGo] at h
    cases h
    exact hnrb
  | cons q rest ih =>
    intro bb bb' hwf hcons hnrb hl h
    obtain ⟨nc, nr⟩ := q
    rw [revealGo] at h
    by_cases hrev : isRevealedPC (bb.get_cell nc nr).player = true
    · rw [if_pos hrev] at h
      exact ih bb bb' hwf hcons hnrb (fun p hp => hl p (List.mem_cons_of_mem _ hp)) h
    · rw [if_neg hrev] at h
      have hin := hl (nc, nr) (List.mem_cons_self _ _)
      have hwf1 : (bb.put_player nc nr .Revealed).WF :=
        WF_of_sameShape (sameShape_modify _ _ _ _) hwf
      have hcons1 : consistentB (bb.put_player nc nr .Revealed) :=
        consistentB_congr hcons rfl (content_put_player bb nc nr .Revealed)
      have hnrb1 : noRevealedBombs (bb.put_player nc nr .Revealed) := by
        intro c r hbomb
        rw [content_put_player bb nc nr .Revealed c r] at hbomb
        by_cases hcr : (c, r) = (nc, nr)
        · obtain ⟨rfl, rfl⟩ := Prod.mk.injEq .. ▸ Prod.ext_iff.mp hcr
          exact absurd hbomb hin.2.2
        · rw [get_cell_put_player_ne bb nc nr .Revealed hcr]
          exact hnrb c r hbomb
      have hl1 : ∀ p ∈ rest, p.1 < (bb.put_player nc nr .Revealed).size.1 ∧
          p.2 < (bb.put_player nc nr .Revealed).size.2 ∧
          ((bb.put_player nc nr .Revealed).get_cell p.1 p.2).content ≠ .Bomb := by
        intro p hp
        have := hl p (List.mem_cons_of_mem _ hp)
        refine ⟨this.1, this.2.1, ?_⟩
        rw [content_put_player bb nc nr .Revealed p.1 p.2]
        exact this.2.2
      split at h
      · rename_i heq
        rcases hdesc : revealDescend fuel (bb.put_player nc nr .Revealed) nc nr with _ | b2
        · rw [hdesc] at h
          exact absurd h (by simp)
        · rw [hdesc] at h
          simp only at h
          have hnrb2 : noRevealedBombs b2 :=
            ihd _ nc nr b2 hwf1 hcons1 hnrb1 hin.1 hin.2.1 heq hdesc
          have step := revealDescend_step fuel _ nc nr b2 hdesc
          refine ih b2 bb' (WF_of_sameShape step.shape hwf1)
            (consistentB_congr hcons1 step.shape.1 step.content_eq) hnrb2 (fun p hp => ?_) h
          have hp1 := hl1 p hp
          refine ⟨by rw [step.shape.1]; exact hp1.1, by rw [step.shape.1]; exact hp1.2.1, ?_⟩
          rw [step.content_eq p.1 p.2]
          exact hp1.2.2
      · exact ih _ bb' hwf1 hcons1 hnrb1 hl1 h

theorem revealDescend_safe :
    ∀ (fuel : Nat) (bb : Gameboard) (cc rr : Nat) (bb' : Gameboard), bb.WF →
      consistentB bb → noRevealedBombs bb → cc < bb.size.1 → rr < bb.size.2 →
      (bb.get_cell cc rr).content = .Nothing 0 →
      revealDescend fuel bb cc rr = some bb' → noRevealedBombs bb' := by
  intro fuel
  induction fuel with
  | zero =>
    intro bb cc rr bb' _ _ _ _ _ _ h
    rw [revealDescend] at h
    exact absurd h (by simp)
  | succ n ih =>
    intro bb cc rr bb' hwf hcons hnrb hc hr hzero h
    rw [revealDescend] at h
    refine revealGo_safe n ih _ bb bb' hwf hcons hnrb (fun p hp => ?_) h
    refine ⟨(neighborCoords_in_range hwf hp).1, (neighborCoords_in_range hwf hp).2, ?_⟩
    exact no_bombs_of_count_zero (by rw [← hcons cc rr hc hr 0 hzero]) hp

theorem reveal_safe {b : Gameboard} (hwf : b.WF) {col row : Nat}
    (hcons : consistentB b) (hnrb : noRevealedBombs b) (hc : col < b.size.1)
    (hr : row < b.size.2) (hzero : (b.get_cell col row).content = .Nothing 0) :
    noRevealedBombs (b.reveal_with_no_neighbors col row) :=
  revealDescend_safe _ b col row _ hwf hcons hnrb hc hr hzero
    (reveal_with_no_neighbors_eq hwf col row)

theorem scanStep_flagged {b : Gameboard} {st : Nat × Bool} {p : Nat × Nat}
    (h : (b.get_cell p.1 p.2).player = .Flagged) :
    scanStep b st p = (st.1 + 1, if b.bombs < st.1 + 1 then false else st.2) := by
  unfold scanStep
  rw [h]

theorem scanStep_revealed {b : Gameboard} {st : Nat × Bool} {p : Nat × Nat}
    (h : (b.get_cell p.1 p.2).player = .Revealed) : scanStep b st p = st := by
  unfold scanStep
  rw [h]

theorem scanStep_other {b : Gameboard} {st : Nat × Bool} {p : Nat × Nat}
    (h1 : (b.get_cell p.1 p.2).player ≠ .Flagged)
    (h2 : (b.get_cell p.1 p.2).player ≠ .Revealed) :
    scanStep b st p = (st.1, false) := by
  unfold scanStep
  rcases h : (b.get_cell p.1 p.2).player
  · rfl
  · exact absurd h h1
  · rfl
  · exact absurd h h2

theorem isFlagged_eval_nd : isFlagged .NotDetermined = false := rfl

theorem isFlagged_eval_fl : isFlagged .Flagged = true := rfl

theorem isFlagged_eval_qu : isFlagged .Question = false := rfl

theorem isFlagged_eval_rv : isFlagged .Revealed = false := rfl

theorem cellDone_eval_nd : cellDone .NotDetermined = false := rfl

theorem cellDone_eval_fl : cellDone .Flagged = true := rfl

theorem cellDone_eval_qu : cellDone .Question = false := rfl

theorem cellDone_eval_rv : cellDone .Revealed = true := rfl

/-- Closed form of the win scan: the count accumulates the flags, and the
`over` bit survives exactly when every scanned cell is `Flagged`/`Revealed`
and the flag total (when any) never exceeded `bombs`. -/
theorem scan_foldl (b : Gameboard) :
    ∀ (l : List (Nat × Nat)) (f : Nat) (o : Bool),
      l.foldl (scanStep b) (f, o) =
        (f + l.countP (fun p => isFlagged (b.get_cell p.1 p.2).player),
          o && l.all (fun p => cellDone (b.get_cell p.1 p.2).player) &&
            (decide (l.countP (fun p => isFlagged (b.get_cell p.1 p.2).player) = 0) ||
              decide (f + l.countP (fun p => isFlagged (b.get_cell p.1 p.2).player) ≤ b.bombs))) := by
  intro l
  induction l with
  | nil =>
    intro f o
    simp
  | cons q rest ih =>
    intro f o
    rw [List.foldl_cons, List.countP_cons, List.all_cons]
    rcases hp : (b.get_cell q.1 q.2).player with _ | _ | _ | _
    · rw [scanStep_other (by rw [hp]; intro hh; cases hh) (by rw [hp]; intro hh; cases hh),
        ih, isFlagged_eval_nd, cellDone_eval_nd]
      simp
    · rw [scanStep_flagged hp, ih, isFlagged_eval_fl, cellDone_eval_fl]
      simp only [if_true, eq_self_iff_true, Bool.true_and, Prod.mk.injEq]
      generalize List.countP (fun p => isFlagged (b.get_cell p.1 p.2).player) rest = k
      generalize (rest.all fun p => cellDone (b.get_cell p.1 p.2).player) = A
      refine ⟨by omega, ?_⟩
      by_cases hb : b.bombs < f + 1
      · rw [if_pos hb]
        have h1 : decide (k + 1 = 0) = false := by simp
        have h2 : decide (f + (k + 1) ≤ b.bombs) = false := by
          simp only [decide_eq_false_iff_not]
          omega
        rw [h1, h2]
        simp
      · rw [if_neg hb]
        by_cases hz : k = 0
        · subst hz
          have hle : decide (f + (0 + 1) ≤ b.bombs) = true := by
            simp only [decide_eq_true_eq]
            omega
          simp [hle]
        · have hz1 : decide (k = 0) = false := by simp [hz]
          have hz2 : decide (k + 1 = 0) = false := by simp
          have heq : decide (f + 1 + k ≤ b.bombs) = decide (f + (k + 1) ≤ b.bombs) := by
            apply decide_eq_decide.mpr
            omega
          rw [hz1, hz2, heq]
    · rw [scanStep_other (by rw [hp]; intro hh; cases hh) (by rw [hp]; intro hh; cases hh),
        ih, isFlagged_eval_qu, cellDone_eval_qu]
      simp
    · rw [scanStep_revealed hp, ih, isFlagged_eval_rv, cellDone_eval_rv]
      simp

theorem update_state_not_alive {b : Gameboard} (h : b.state ≠ .Alive) (col row : Nat) :
    b.update_state col row = b := by
  unfold Gameboard.update_state
  rw [if_neg h]

theorem update_state_lost_eq {b : Gameboard} (hA : b.state = .Alive) {col row : Nat}
    (h1 : (b.get_cell col row).player = .Revealed)
    (h2 : (b.get_cell col row).content = .Bomb) :
    b.update_state col row = { b with state := .Lost } := by
  unfold Gameboard.update_state
  rw [if_pos hA, if_pos (by rw [h1, h2]; rfl)]

theorem update_state_scan_eq {b : Gameboard} (hA : b.state = .Alive) {col row : Nat}
    (hnl : ¬((b.get_cell col row).player = .Revealed ∧ (b.get_cell col row).content = .Bomb)) :
    b.update_state col row =
      if allRF b && decide (flagCount b = b.bombs)
      then { b with flagged := flagCount b, state := .Won }
      else { b with flagged := flagCount b } := by
  unfold Gameboard.update_state
  rw [if_pos hA]
  have hcond : (isRevealedPC (b.get_cell col row).player &&
      isBomb (b.get_cell col row).content) = false := by
    rcases hp : (b.get_cell col row).player with _ | _ | _ | _ <;>
      rcases hc : (b.get_cell col row).content with n | _ <;>
      simp [isRevealedPC, isBomb] <;> exact absurd ⟨hp, hc⟩ hnl
  rw [hcond]
  simp only [Bool.false_eq_true, if_false]
  rw [scan_foldl b (indexList b.size.1 b.size.2) 0 (true : Bool)]
  simp only [Nat.zero_add]
  have hflag : (indexList b.size.1 b.size.2).countP
      (fun p => isFlagged (b.get_cell p.1 p.2).player) = flagCount b := rfl
  have hall : ((indexList b.size.1 b.size.2).all
      fun p => cellDone (b.get_cell p.1 p.2).player) = allRF b := rfl
  rw [hflag, hall]
  simp only [Bool.true_and]
  by_cases hA2 : allRF b = true
  · rw [hA2]
    simp only [Bool.true_and]
    by_cases he : flagCount b = b.bombs
    · have h1 : (decide (flagCount b = 0) || decide (flagCount b ≤ b.bombs)) = true := by
        simp
        omega
      rw [h1]
      simp only [Bool.true_and]
      have h2 : (flagCount b == b.bombs) = true := by
        simp [he]
      have h3 : decide (flagCount b = b.bombs) = true := by simp [he]
      rw [h2, h3]
    · have h2 : (flagCount b == b.bombs) = false := by
        simp [he]
      have h3 : decide (flagCount b = b.bombs) = false := by simp [he]
      rw [h2, h3]
      simp
  · have hA2f : allRF b = false := by
      cases h : allRF b
      · rfl
      · exact absurd h hA2
    rw [hA2f]
    simp

theorem update_state_cells (b : Gameboard) (col row : Nat) :
    (b.update_state col row).cells = b.cells := by
  unfold Gameboard.update_state
  by_cases h : b.state = .Alive
  · rw [if_pos h]
    split
    · rfl
    · simp only
      split
      · rfl
      · rfl
  · rw [if_neg h]

theorem update_state_size (b : Gameboard) (col row : Nat) :
    (b.update_state col row).size = b.size := by
  unfold Gameboard.update_state
  by_cases h : b.state = .Alive
  · rw [if_pos h]
    split
    · rfl
    · simp only
      split
      · rfl
      · rfl
  · rw [if_neg h]

theorem update_state_bombs (b : Gameboard) (col row : Nat) :
    (b.update_state col row).bombs = b.bombs := by
  unfold Gameboard.update_state
  by_cases h : b.state = .Alive
  · rw [if_pos h]
    split
    · rfl
    · simp only
      split
      · rfl
      · rfl
  · rw [if_neg h]

theorem update_state_get_cell (b : Gameboard) (col row c r : Nat) :
    (b.update_state col row).get_cell c r = b.get_cell c r := by
  unfold Gameboard.get_cell
  rw [update_state_cells]

theorem set_not_initial_not_alive {b : Gameboard} (h1 : b.state ≠ .Initial)
    (h2 : b.state ≠ .Alive) (ds : List (Nat × Nat)) (col row : Nat) (val : PlayerCell) :
    b.set ds col row val = some b := by
  unfold Gameboard.set
  rw [if_neg h1, if_neg h2]

theorem set_initial_other {b : Gameboard} (hI : b.state = .Initial) {val : PlayerCell}
    (hval : val ≠ .Revealed) (ds : List (Nat × Nat)) (col row : Nat) :
    b.set ds col row val = some b := by
  unfold Gameboard.set
  rw [if_pos hI]
  rcases val with _ | _ | _ | _
  · rfl
  · rfl
  · rfl
  · exact absurd rfl hval

theorem set_initial_reveal_none {b : Gameboard} (hI : b.state = .Initial)
    {ds : List (Nat × Nat)} {col row : Nat}
    (hinit : (b.put_player col row .Revealed).init ds col row = none) :
    b.set ds col row .Revealed = none := by
  unfold Gameboard.set
  rw [if_pos hI]
  simp only [hinit]

theorem set_initial_reveal_zero {b b2 : Gameboard} (hI : b.state = .Initial)
    {ds : List (Nat × Nat)} {col row : Nat}
    (hinit : (b.put_player col row .Revealed).init ds col row = some b2)
    (hzero : (b2.get_cell col row).content = .Nothing 0) :
    b.set ds col row .Revealed = some (b2.reveal_with_no_neighbors col row) := by
  unfold Gameboard.set
  rw [if_pos hI]
  simp only [hinit, hzero]

theorem set_initial_reveal_nonzero {b b2 : Gameboard} (hI : b.state = .Initial)
    {ds : List (Nat × Nat)} {col row : Nat}
    (hinit : (b.put_player col row .Revealed).init ds col row = some b2)
    (hnz : ∀ hc : (b2.get_cell col row).content = .Nothing 0, False) :
    b.set ds col row .Revealed = some b2 := by
  unfold Gameboard.set
  rw [if_pos hI]
  simp only [hinit]

theorem set_alive_flagcap {b : Gameboard} (hA : b.state = .Alive)
    (hcap : b.bombs ≤ b.flagged) (ds : List (Nat × Nat)) (col row : Nat) :
    b.set ds col row .Flagged = some b := by
  unfold Gameboard.set
  rw [if_neg (by rw [hA]; intro hh; cases hh), if_pos hA,
    if_pos (by simp [isFlagged, hcap])]

theorem set_alive_revealed_noop {b : Gameboard} (hA : b.state = .Alive) {col row : Nat}
    (hrev : (b.get_cell col row).player = .Revealed) (ds : List (Nat × Nat))
    (val : PlayerCell) : b.set ds col row val = some b := by
  unfold Gameboard.set
  rw [if_neg (by rw [hA]; intro hh; cases hh), if_pos hA]
  by_cases hcap : (isFlagged val && decide (b.bombs ≤ b.flagged)) = true
  · rw [if_pos hcap]
  · rw [if_neg hcap, if_pos (by rw [hrev]; rfl)]

theorem set_alive_cascade {b : Gameboard} (hA : b.state = .Alive) {col row : Nat}
    (hrev : (b.get_cell col row).player ≠ .Revealed)
    (hzero : ((b.put_player col row .Revealed).get_cell col row).content = .Nothing 0)
    (ds : List (Nat × Nat)) :
    b.set ds col row .Revealed =
      some (((b.put_player col row .Revealed).reveal_with_no_neighbors col row).update_state
        col row) := by
  unfold Gameboard.set
  rw [if_neg (by rw [hA]; intro hh; cases hh), if_pos hA,
    if_neg (by simp [isFlagged]),
    if_neg (by rcases hp : (b.get_cell col row).player <;> simp [isRevealedPC] <;>
      exact hrev hp)]
  simp only [hzero]

theorem set_alive_reveal_plain {b : Gameboard} (hA : b.state = .Alive) {col row : Nat}
    (hrev : (b.get_cell col row).player ≠ .Revealed)
    (hnz : ∀ hc : ((b.put_player col row .Revealed).get_cell col row).content = .Nothing 0,
      False) (ds : List (Nat × Nat)) :
    b.set ds col row .Revealed =
      some ((b.put_player col row .Revealed).update_state col row) := by
  unfold Gameboard.set
  rw [if_neg (by rw [hA]; intro hh; cases hh), if_pos hA,
    if_neg (by simp [isFlagged]),
    if_neg (by rcases hp : (b.get_cell col row).player <;> simp [isRevealedPC] <;>
      exact hrev hp)]
  rcases hc : ((b.put_player col row .Revealed).get_cell col row).content with n | _
  · rcases n with _ | m
    · exact absurd hc (fun hh => hnz hh)
    · rfl
  · rfl

theorem set_alive_annotate {b : Gameboard} (hA : b.state = .Alive) {col row : Nat}
    {val : PlayerCell} (hval : val ≠ .Revealed)
    (hcap : ¬(isFlagged val && decide (b.bombs ≤ b.flagged)) = true)
    (hrev : (b.get_cell col row).player ≠ .Revealed) (ds : List (Nat × Nat)) :
    b.set ds col row val = some ((b.put_player col row val).update_state col row) := by
  unfold Gameboard.set
  rw [if_neg (by rw [hA]; intro hh; cases hh), if_pos hA, if_neg hcap,
    if_neg (by rcases hp : (b.get_cell col row).player <;> simp [isRevealedPC] <;>
      exact hrev hp)]
  rcases val with _ | _ | _ | _
  · rfl
  · rfl
  · rfl
  · exact absurd rfl hval

theorem bombCount_put_bomb {b : Gameboard} (hwf : b.WF) {col row : Nat}
    (hc : col < b.size.1) (hr : row < b.size.2)
    (hnb : isBomb (b.get_cell col row).content = false) :
    bombCount (b.put_content col row .Bomb) = bombCount b + 1 := by
  have h := count_pointwise_update b (b.put_content col row .Bomb) rfl hc hr
    (fun cell => isBomb cell.content)
    (fun cc rr hcr => content_put_content_ne b col row .Bomb hcr)
  rw [get_cell_put_content_self hwf hc hr .Bomb] at h
  rw [if_neg (by simp [hnb]), if_pos (by simp [isBomb])] at h
  unfold bombCount
  simpa using h

theorem PlacePres.place_refl (b : Gameboard) : PlacePres b b :=
  ⟨sameShape_refl b, rfl, rfl, rfl, fun _ _ => rfl⟩

theorem PlacePres.place_trans {a b c : Gameboard} (h1 : PlacePres a b) (h2 : PlacePres b c) :
    PlacePres a c :=
  ⟨sameShape_trans h1.shape h2.shape, h2.bombs_eq.trans h1.bombs_eq,
    h2.flagged_eq.trans h1.flagged_eq, h2.state_eq.trans h1.state_eq,
    fun cc rr => (h2.player_eq cc rr).trans (h1.player_eq cc rr)⟩

theorem PlacePres.put_content (b : Gameboard) (col row : Nat) (v : CellContent) :
    PlacePres b (b.put_content col row v) :=
  ⟨sameShape_modify b col row _, rfl, rfl, rfl, player_put_content b col row v⟩

theorem placeBombs_nil (rcol rrow placed : Nat) (b : Gameboard) :
    placeBombs rcol rrow [] placed b = if placed < b.bombs then none else some b := rfl

theorem placeBombs_cons (rcol rrow dc dr : Nat) (rest : List (Nat × Nat)) (placed : Nat)
    (b : Gameboard) :
    placeBombs rcol rrow ((dc, dr) :: rest) placed b =
      if placed < b.bombs then
        if is_neighbour rcol rrow dc dr then placeBombs rcol rrow rest placed b
        else
          match (b.get_cell dc dr).content with
          | .Nothing _ => placeBombs rcol rrow rest (placed + 1) (b.put_content dc dr .Bomb)
          | .Bomb => placeBombs rcol rrow rest placed b
      else some b := rfl

theorem placeBombs_pres (rcol rrow : Nat) :
    ∀ (ds : List (Nat × Nat)) (placed : Nat) (b b' : Gameboard),
      placeBombs rcol rrow ds placed b = some b' → PlacePres b b' := by
  intro ds
  induction ds with
  | nil =>
    intro placed b b' h
    rw [placeBombs_nil] at h
    by_cases hp : placed < b.bombs
    · rw [if_pos hp] at h
      exact absurd h (by simp)
    · rw [if_neg hp] at h
      cases h
      exact PlacePres.place_refl b
  | cons d rest ih =>
    intro placed b b' h
    obtain ⟨dc, dr⟩ := d
    rw [placeBombs_cons] at h
    by_cases hp : placed < b.bombs
    · rw [if_pos hp] at h
      by_cases hnb : is_neighbour rcol rrow dc dr = true
      · rw [if_pos hnb] at h
        exact ih placed b b' h
      · rw [if_neg hnb] at h
        rcases hc : (b.get_cell dc dr).content with n | _
        · simp only [hc] at h
          exact (PlacePres.put_content b dc dr .Bomb).place_trans (ih _ _ b' h)
        · simp only [hc] at h
          exact ih placed b b' h
    · rw [if_neg hp] at h
      cases h
      exact PlacePres.place_refl b

theorem placeBombs_keep_neighbour (rcol rrow : Nat) :
    ∀ (ds : List (Nat × Nat)) (placed : Nat) (b b' : Gameboard),
      placeBombs rcol rrow ds placed b = some b' →
      ∀ c r, is_neighbour rcol rrow c r = true → b'.get_cell c r = b.get_cell c r := by
  intro ds
  induction ds with
  | nil =>
    intro placed b b' h c r hnb
    rw [placeBombs_nil] at h
    by_cases hp : placed < b.bombs
    · rw [if_pos hp] at h
      exact absurd h (by simp)
    · rw [if_neg hp] at h
      cases h
      rfl
  | cons d rest ih =>
    intro placed b b' h c r hnb
    obtain ⟨dc, dr⟩ := d
    rw [placeBombs_cons] at h
    by_cases hp : placed < b.bombs
    · rw [if_pos hp] at h
      by_cases hd : is_neighbour rcol rrow dc dr = true
      · rw [if_pos hd] at h
        exact ih placed b b' h c r hnb
      · rw [if_neg hd] at h
        rcases hc : (b.get_cell dc dr).content with n | _
        · simp only [hc] at h
          have hne : (c, r) ≠ (dc, dr) := by
            intro hh
            obtain ⟨rfl, rfl⟩ := Prod.mk.injEq .. ▸ Prod.ext_iff.mp hh
            exact hd hnb
          rw [ih _ _ b' h c r hnb, content_put_content_ne b dc dr .Bomb hne]
        · simp only [hc] at h
          exact ih placed b b' h c r hnb
    · rw [if_neg hp] at h
      cases h
      rfl

theorem placeBombs_count (rcol rrow : Nat) :
    ∀ (ds : List (Nat × Nat)) (placed : Nat) (b b' : Gameboard), b.WF →
      (∀ d ∈ ds, d.1 < b.size.1 ∧ d.2 < b.size.2) → placed ≤ b.bombs →
      bombCount b = placed → placeBombs rcol rrow ds placed b = some b' →
      bombCount b' = b.bombs := by
  intro ds
  induction ds with
  | nil =>
    intro placed b b' _ _ hle hcnt h
    rw [placeBombs_nil] at h
    by_cases hp : placed < b.bombs
    · rw [if_pos hp] at h
      exact absurd h (by simp)
    · rw [if_neg hp] at h
      cases h
      omega
  | cons d rest ih =>
    intro placed b b' hwf hds hle hcnt h
    obtain ⟨dc, dr⟩ := d
    rw [placeBombs_cons] at h
    by_cases hp : placed < b.bombs
    · rw [if_pos hp] at h
      by_cases hd : is_neighbour rcol rrow dc dr = true
      · rw [if_pos hd] at h
        exact ih placed b b' hwf (fun q hq => hds q (List.mem_cons_of_mem _ hq)) hle hcnt h
      · rw [if_neg hd] at h
        rcases hc : (b.get_cell dc dr).content with n | _
        · simp only [hc] at h
          have hin := hds (dc, dr) (List.mem_cons_self _ _)
          have hcnt1 : bombCount (b.put_content dc dr .Bomb) = placed + 1 := by
            rw [bombCount_put_bomb hwf hin.1 hin.2 (by rw [hc]; rfl), hcnt]
          have hres := ih (placed + 1) (b.put_content dc dr .Bomb) b'
            (WF_of_sameShape (sameShape_modify _ _ _ _) hwf)
            (fun q hq => hds q (List.mem_cons_of_mem _ hq))
            (by show placed + 1 ≤ b.bombs; omega) hcnt1 h
          exact hres
        · simp only [hc] at h
          exact ih placed b b' hwf (fun q hq => hds q (List.mem_cons_of_mem _ hq)) hle hcnt h
    · rw [if_neg hp] at h
      cases h
      omega

theorem isBomb_eval_nothing (n : Nat) : isBomb (.Nothing n) = false := rfl

theorem isBomb_eval_bomb : isBomb .Bomb = true := rfl

/-- The neighbour-count pass along a prefix of the index scan: it preserves
everything except `Nothing` payloads, and every visited non-bomb cell ends up
storing its own neighbourhood bomb count. -/
theorem compN_foldl (b0 : Gameboard) :
    ∀ (l : List (Nat × Nat)) (acc : Gameboard), acc.WF → acc.size = b0.size →
      (∀ c r, isBomb (acc.get_cell c r).content = isBomb (b0.get_cell c r).content) →
      (∀ p ∈ l, p.1 < acc.size.1 ∧ p.2 < acc.size.2) → l.Nodup →
      PlacePres acc (l.foldl compNStep acc) ∧
        (∀ c r, isBomb ((l.foldl compNStep acc).get_cell c r).content =
          isBomb (b0.get_cell c r).content) ∧
        (∀ p ∈ l, ∀ n, ((l.foldl compNStep acc).get_cell p.1 p.2).content = .Nothing n →
          n = (l.foldl compNStep acc).count_neighbor_bombs p.1 p.2) ∧
        (∀ c r, ((c, r) : Nat × Nat) ∉ l →
          (l.foldl compNStep acc).get_cell c r = acc.get_cell c r) := by
  intro l
  induction l with
  | nil =>
    intro acc _ _ hbomb _ _
    exact ⟨PlacePres.place_refl acc, hbomb, fun p hp => absurd hp (List.not_mem_nil _),
      fun _ _ _ => rfl⟩
  | cons q rest ih =>
    intro acc hwf hsz hbomb hl hnd
    have hin := hl q (List.mem_cons_self _ _)
    rw [List.foldl_cons]
    have hnd2 := List.nodup_cons.mp hnd
    -- facts about one step
    have hstep : PlacePres acc (compNStep acc q) ∧
        (∀ c r, isBomb ((compNStep acc q).get_cell c r).content =
          isBomb (acc.get_cell c r).content) ∧
        (∀ c r, (c, r) ≠ q → (compNStep acc q).get_cell c r = acc.get_cell c r) := by
      unfold compNStep
      rcases hc : (acc.get_cell q.1 q.2).content with n | _
      · refine ⟨PlacePres.put_content acc q.1 q.2 _, fun c r => ?_, fun c r hne => ?_⟩
        · by_cases hcr : (c, r) = (q.1, q.2)
          · obtain ⟨rfl, rfl⟩ := Prod.mk.injEq .. ▸ Prod.ext_iff.mp hcr
            rw [get_cell_put_content_self hwf hin.1 hin.2]
            simp only [isBomb_eval_nothing]
            rw [hc, isBomb_eval_nothing]
          · rw [content_put_content_ne acc q.1 q.2 _ hcr]
        · exact content_put_content_ne acc q.1 q.2 _ (by simpa using hne)
      · exact ⟨PlacePres.place_refl acc, fun _ _ => rfl, fun _ _ _ => rfl⟩
    have hwf1 : (compNStep acc q).WF := WF_of_sameShape hstep.1.shape hwf
    have hsz1 : (compNStep acc q).size = b0.size := hstep.1.shape.1.trans hsz
    have hbomb1 : ∀ c r, isBomb ((compNStep acc q).get_cell c r).content =
        isBomb (b0.get_cell c r).content :=
      fun c r => (hstep.2.1 c r).trans (hbomb c r)
    have hl1 : ∀ p ∈ rest, p.1 < (compNStep acc q).size.1 ∧
        p.2 < (compNStep acc q).size.2 := by
      intro p hp
      have h := hl p (List.mem_cons_of_mem _ hp)
      rwa [hstep.1.shape.1]
    obtain ⟨hpres, hbombR, hcorr, hkeep⟩ := ih (compNStep acc q) hwf1 hsz1 hbomb1 hl1 hnd2.2
    refine ⟨hstep.1.place_trans hpres, hbombR, ?_, ?_⟩
    · intro p hp n hn
      rcases List.mem_cons.mp hp with rfl | hp2
      · have hq : (rest.foldl compNStep (compNStep acc p)).get_cell p.1 p.2 =
            (compNStep acc p).get_cell p.1 p.2 := by
          apply hkeep p.1 p.2
          intro hmem
          exact hnd2.1 (by simpa using hmem)
        rw [hq] at hn
        unfold compNStep at hn
        rcases hc : (acc.get_cell p.1 p.2).content with m | _
        · rw [hc] at hn
          simp only at hn
          rw [get_cell_put_content_self hwf hin.1 hin.2] at hn
          simp only [CellContent.Nothing.injEq] at hn
          subst hn
          apply count_neighbor_bombs_congr
          · exact (hpres.shape.1.trans hstep.1.shape.1).symm
          · intro c r
            exact (hbomb c r).trans (hbombR c r).symm
        · rw [hc] at hn
          simp only at hn
          rw [hc] at hn
          cases hn
      · exact hcorr p hp2 n hn
    · intro c r hcr
      have h1 : ((c, r) : Nat × Nat) ∉ rest := fun hh => hcr (List.mem_cons_of_mem _ hh)
      have h2 : ((c, r) : Nat × Nat) ≠ q := fun hh => hcr (hh ▸ List.mem_cons_self _ _)
      rw [hkeep c r h1, hstep.2.2 c r h2]

theorem computeNeighbors_spec {b : Gameboard} (hwf : b.WF) :
    PlacePres b (computeNeighbors b) ∧
      (∀ c r, isBomb ((computeNeighbors b).get_cell c r).content =
        isBomb (b.get_cell c r).content) ∧
      consistentB (computeNeighbors b) := by
  unfold computeNeighbors
  have h := compN_foldl b (indexList b.size.1 b.size.2) b hwf rfl (fun _ _ => rfl)
    (fun p hp => mem_indexList.mp hp) (nodup_indexList _ _)
  refine ⟨h.1, h.2.1, ?_⟩
  intro c r hc hr n hn
  have hsz := h.1.shape.1
  rw [hsz] at hc hr
  exact h.2.2.1 (c, r) (mem_indexList.mpr ⟨hc, hr⟩) n hn

theorem is_neighbour_self (c r : Nat) : is_neighbour c r c r = true := by
  simp only [is_neighbour, Bool.and_eq_true, decide_eq_true_eq]
  omega

theorem content_not_bomb {x : CellContent} (h : isBomb x = false) : ∃ k, x = .Nothing k := by
  rcases x with k | _
  · exact ⟨k, rfl⟩
  · simp [isBomb] at h

theorem listGetD_oob {α : Type} (l : List α) {n : Nat} (d : α) (h : l.length ≤ n) :
    l.getD n d = d := by
  rw [List.getD_eq_getElem?_getD, List.getElem?_eq_none h]
  rfl

theorem get_cell_new (cols rows bombs c r : Nat) :
    (Gameboard.new cols rows bombs).get_cell c r = default := by
  unfold Gameboard.new Gameboard.get_cell
  simp only
  by_cases hr : r < rows
  · rw [getD_replicate _ _ hr]
    by_cases hc : c < cols
    · rw [getD_replicate _ _ hc]
    · exact listGetD_oob _ _ (by simp; omega)
  · have h1 : (List.replicate rows (List.replicate cols (default : Cell))).getD r [] = [] :=
      listGetD_oob _ _ (by simp; omega)
    rw [h1]
    rfl

theorem init_cases {b bi : Gameboard} {ds : List (Nat × Nat)} {col row : Nat}
    (h : b.init ds col row = some bi) :
    ∃ bp, placeBombs col row ds 0 b = some bp ∧
      bi = { computeNeighbors bp with state := .Alive } := by
  unfold Gameboard.init at h
  rcases hpb : placeBombs col row ds 0 b with _ | bp
  · rw [hpb] at h
    exact absurd h (by simp)
  · rw [hpb] at h
    simp only [Option.some.injEq] at h
    exact ⟨bp, rfl, h.symm⟩

theorem EngineInv_new {cols rows bombs : Nat} (h : bombs < cols * rows) :
    EngineInv (Gameboard.new cols rows bombs) := by
  refine ⟨WF_new h, fun _ => ⟨rfl, get_cell_new cols rows bombs⟩, ?_, ?_, ?_⟩
  · intro hne
    exact absurd rfl hne
  · intro _
    have hz : flagCount (Gameboard.new cols rows bombs) = 0 := by
      apply List.countP_eq_zero.mpr
      intro p _
      rw [get_cell_new]
      simp [isFlagged]
    rw [hz]
    rfl
  · intro _ c r hb
    rw [get_cell_new] at hb
    cases hb

theorem EngineInv_update_state {bm : Gameboard} (hwf : bm.WF) (hA : bm.state = .Alive)
    (hcons : consistentB bm) (hnrb : noRevealedBombs bm) (col row : Nat) :
    EngineInv (bm.update_state col row) := by
  have hnl : ¬((bm.get_cell col row).player = .Revealed ∧
      (bm.get_cell col row).content = .Bomb) :=
    fun hh => hnrb col row hh.2 hh.1
  rw [update_state_scan_eq hA hnl]
  by_cases hwon : (allRF bm && decide (flagCount bm = bm.bombs)) = true
  · rw [if_pos hwon]
    refine ⟨hwf, ?_, ?_, ?_, ?_⟩
    · intro hh
      simp at hh
    · intro _
      exact hcons
    · intro _
      rfl
    · intro _
      exact hnrb
  · rw [if_neg hwon]
    refine ⟨hwf, ?_, ?_, ?_, ?_⟩
    · intro hh
      rw [show ({ bm with flagged := flagCount bm } : Gameboard).state = bm.state from rfl,
        hA] at hh
      cases hh
    · intro _
      exact hcons
    · intro _
      rfl
    · intro _
      exact hnrb

theorem withState_get_cell (X : Gameboard) (s : GameState) (c r : Nat) :
    ({ X with state := s } : Gameboard).get_cell c r = X.get_cell c r := rfl

theorem withState_size (X : Gameboard) (s : GameState) :
    ({ X with state := s } : Gameboard).size = X.size := rfl

theorem withState_flagged (X : Gameboard) (s : GameState) :
    ({ X with state := s } : Gameboard).flagged = X.flagged := rfl

theorem EngineInv_set {b b' : Gameboard} (hinv : EngineInv b) {ds : List (Nat × Nat)}
    {col row : Nat} {val : PlayerCell} (hc : col < b.size.1) (hr : row < b.size.2)
    (hset : b.set ds col row val = some b') : EngineInv b' := by
  obtain ⟨hwf, hInit, hCons, hFlag, hNRB⟩ := hinv
  by_cases hI : b.state = .Initial
  · by_cases hval : val = .Revealed
    · subst hval
      obtain ⟨hfl0, hdef⟩ := hInit hI
      unfold Gameboard.set at hset
      rw [if_pos hI] at hset
      rcases hini : (b.put_player col row .Revealed).init ds col row with _ | b2
      · simp only [hini] at hset
        exact absurd hset (by simp)
      · simp only [hini] at hset
        obtain ⟨bp, hpb, hb2⟩ := init_cases hini
        have hwf1 : (b.put_player col row .Revealed).WF :=
          WF_of_sameShape (sameShape_modify _ _ _ _) hwf
        have hpp := placeBombs_pres col row ds 0 _ bp hpb
        have hwfp : bp.WF := WF_of_sameShape hpp.shape hwf1
        have hcn := computeNeighbors_spec hwfp
        have hwf2 : b2.WF := by
          rw [hb2]
          exact WF_of_sameShape hcn.1.shape hwfp
        have hsz2 : b2.size = b.size := by
          rw [hb2]
          exact hcn.1.shape.1.trans hpp.shape.1
        have hst2 : b2.state = .Alive := by rw [hb2]
        have hcons2 : consistentB b2 := by
          rw [hb2]
          exact hcn.2.2
        have hplayer2 : ∀ c2 r2, (b2.get_cell c2 r2).player =
            ((b.put_player col row .Revealed).get_cell c2 r2).player := by
          intro c2 r2
          rw [hb2, withState_get_cell]
          exact (hcn.1.player_eq c2 r2).trans (hpp.player_eq c2 r2)
        have hnbr : ∀ p : Nat × Nat, is_neighbour col row p.1 p.2 = true →
            (bp.get_cell p.1 p.2).content = .Nothing 0 := by
          intro p hp
          rw [placeBombs_keep_neighbour col row ds 0 _ bp hpb p.1 p.2 hp,
            content_put_player b col row .Revealed p.1 p.2, hdef p.1 p.2]
          rfl
        have hibomb2 : ∀ c2 r2, isBomb (b2.get_cell c2 r2).content =
            isBomb (bp.get_cell c2 r2).content := by
          intro c2 r2
          rw [hb2]
          exact hcn.2.1 c2 r2
        have hcz : b2.count_neighbor_bombs col row = 0 := by
          unfold Gameboard.count_neighbor_bombs
          apply List.countP_eq_zero.mpr
          intro p hp
          have hnb := (mem_neighborCoords.mp hp).1
          have hfalse : isBomb (b2.get_cell p.1 p.2).content = false := by
            rw [hibomb2 p.1 p.2, hnbr p hnb]
            rfl
          simp [hfalse]
        have hcont2 : (b2.get_cell col row).content = .Nothing 0 := by
          have hib : isBomb (b2.get_cell col row).content = false := by
            rw [hibomb2 col row, hnbr (col, row) (is_neighbour_self col row)]
            rfl
          obtain ⟨k, hk⟩ := content_not_bomb hib
          have hkz := hcons2 col row (by rw [hsz2]; exact hc) (by rw [hsz2]; exact hr) k hk
          rw [hk, hkz, hcz]
        simp only [hcont2, Option.some.injEq] at hset
        subst hset
        have hstep := reveal_step b2 col row
        have hnrb2 : noRevealedBombs b2 := by
          intro c2 r2 hbomb hrev2
          by_cases hcr : (c2, r2) = (col, row)
          · obtain ⟨rfl, rfl⟩ := Prod.mk.injEq .. ▸ Prod.ext_iff.mp hcr
            rw [hcont2] at hbomb
            cases hbomb
          · rw [hplayer2 c2 r2, get_cell_put_player_ne b col row .Revealed hcr,
              hdef c2 r2] at hrev2
            exact absurd hrev2 (by decide)
        refine ⟨WF_of_sameShape hstep.shape hwf2, ?_, ?_, ?_, ?_⟩
        · intro hh
          rw [hstep.state_eq, hst2] at hh
          cases hh
        · intro _
          exact consistentB_congr hcons2 hstep.shape.1 hstep.content_eq
        · intro _
          have hfl : (b2.reveal_with_no_neighbors col row).flagged = 0 := by
            rw [hstep.flagged_eq]
            have h1 : b2.flagged = bp.flagged := by rw [hb2]; exact hcn.1.flagged_eq
            rw [h1, hpp.flagged_eq]
            exact hfl0
          have hfc : flagCount (b2.reveal_with_no_neighbors col row) = 0 := by
            apply List.countP_eq_zero.mpr
            intro p _
            rcases hstep.player_mono p.1 p.2 with hm | hm
            · rw [hm, hplayer2 p.1 p.2]
              rcases player_put_player_mono b col row .Revealed p.1 p.2 with hm2 | hm2
              · rw [hm2, hdef p.1 p.2]
                decide
              · rw [hm2]
                decide
            · rw [hm]
              decide
          rw [hfl, hfc]
        · intro _
          exact reveal_safe hwf2 hcons2 hnrb2 (by rw [hsz2]; exact hc)
            (by rw [hsz2]; exact hr) hcont2
    · rw [set_initial_other hI hval ds col row] at hset
      obtain rfl := Option.some.inj hset
      exact ⟨hwf, hInit, hCons, hFlag, hNRB⟩
  · by_cases hA : b.state = .Alive
    · have hnL : b.state ≠ .Lost := by rw [hA]; intro hh; cases hh
      have hconsb : consistentB b := hCons hI
      have hnrbb : noRevealedBombs b := hNRB hnL
      by_cases hcap : (isFlagged val && decide (b.bombs ≤ b.flagged)) = true
      · have hvf : val = .Flagged := by
          rcases val with _ | _ | _ | _
          · simp [isFlagged] at hcap
          · rfl
          · simp [isFlagged] at hcap
          · simp [isFlagged] at hcap
        subst hvf
        have hle : b.bombs ≤ b.flagged := by simpa [isFlagged] using hcap
        rw [set_alive_flagcap hA hle ds col row] at hset
        obtain rfl := Option.some.inj hset
        exact ⟨hwf, hInit, hCons, hFlag, hNRB⟩
      · by_cases hrev : (b.get_cell col row).player = .Revealed
        · rw [set_alive_revealed_noop hA hrev ds val] at hset
          obtain rfl := Option.some.inj hset
          exact ⟨hwf, hInit, hCons, hFlag, hNRB⟩
        · have hwf1 : (b.put_player col row val).WF :=
            WF_of_sameShape (sameShape_modify _ _ _ _) hwf
          have hcons1 : consistentB (b.put_player col row val) :=
            consistentB_congr hconsb rfl (content_put_player b col row val)
          have hst1 : (b.put_player col row val).state = .Alive := hA
          by_cases hvr : val = .Revealed
          · subst hvr
            have hp1 : ((b.put_player col row .Revealed).get_cell col row).player =
                .Revealed := by
              rw [get_cell_put_player_self hwf hc hr .Revealed]
            by_cases hz : ((b.put_player col row .Revealed).get_cell col row).content =
                .Nothing 0
            · rw [set_alive_cascade hA hrev hz ds] at hset
              obtain rfl := Option.some.inj hset
              have hnrb1 : noRevealedBombs (b.put_player col row .Revealed) := by
                intro c2 r2 hbomb hrev2
                by_cases hcr : (c2, r2) = (col, row)
                · obtain ⟨rfl, rfl⟩ := Prod.mk.injEq .. ▸ Prod.ext_iff.mp hcr
                  rw [hz] at hbomb
                  cases hbomb
                · rw [get_cell_put_player_ne b col row .Revealed hcr] at hbomb hrev2
                  exact hnrbb c2 r2 hbomb hrev2
              have hstep := reveal_step (b.put_player col row .Revealed) col row
              have hwfm := WF_of_sameShape hstep.shape hwf1
              have hconsm := consistentB_congr hcons1 hstep.shape.1 hstep.content_eq
              have hnrbm := reveal_safe hwf1 hcons1 hnrb1 hc hr hz
              have hstm := hstep.state_eq.trans hst1
              exact EngineInv_update_state hwfm hstm hconsm hnrbm col row
            · rw [set_alive_reveal_plain hA hrev (fun hh => hz hh) ds] at hset
              obtain rfl := Option.some.inj hset
              rcases hcb : ((b.put_player col row .Revealed).get_cell col row).content
                with k | _
              · have hnrb1 : noRevealedBombs (b.put_player col row .Revealed) := by
                  intro c2 r2 hbomb hrev2
                  by_cases hcr : (c2, r2) = (col, row)
                  · obtain ⟨rfl, rfl⟩ := Prod.mk.injEq .. ▸ Prod.ext_iff.mp hcr
                    rw [hcb] at hbomb
                    cases hbomb
                  · rw [get_cell_put_player_ne b col row .Revealed hcr] at hbomb hrev2
                    exact hnrbb c2 r2 hbomb hrev2
                exact EngineInv_update_state hwf1 hst1 hcons1 hnrb1 col row
              · rw [update_state_lost_eq hst1 hp1 hcb]
                refine ⟨hwf1, ?_, ?_, ?_, ?_⟩
                · intro hh
                  simp at hh
                · intro _
                  exact hcons1
                · intro hh
                  exact absurd rfl hh
                · intro hh
                  exact absurd rfl hh
          · rw [set_alive_annotate hA hvr hcap hrev ds] at hset
            obtain rfl := Option.some.inj hset
            have hnrb1 : noRevealedBombs (b.put_player col row val) := by
              intro c2 r2 hbomb hrev2
              by_cases hcr : (c2, r2) = (col, row)
              · obtain ⟨rfl, rfl⟩ := Prod.mk.injEq .. ▸ Prod.ext_iff.mp hcr
                rw [get_cell_put_player_self hwf hc hr val] at hrev2
                exact hvr hrev2
              · rw [get_cell_put_player_ne b col row val hcr] at hbomb hrev2
                exact hnrbb c2 r2 hbomb hrev2
            exact EngineInv_update_state hwf1 hst1 hcons1 hnrb1 col row
    · rw [set_not_initial_not_alive hI hA ds col row val] at hset
      obtain rfl := Option.some.inj hset
      exact ⟨hwf, hInit, hCons, hFlag, hNRB⟩

theorem EngineInv_annotate {b b' : Gameboard} (hinv : EngineInv b) {col row : Nat}
    (hc : col < b.size.1) (hr : row < b.size.2)
    (hset : b.annotate_cycle col row = some b') : EngineInv b' := by
  unfold Gameboard.annotate_cycle at hset
  rcases hp : (b.get_cell col row).player with _ | _ | _ | _
  · simp only [hp] at hset
    exact EngineInv_set hinv hc hr hset
  · simp only [hp] at hset
    exact EngineInv_set hinv hc hr hset
  · simp only [hp] at hset
    exact EngineInv_set hinv hc hr hset
  · simp only [hp] at hset
    obtain rfl := Option.some.inj hset
    exact hinv

/-- Every reachable board satisfies the engine invariant. -/
theorem EngineInv_reachable {b : Gameboard} (h : Reachable b) : EngineInv b := by
  induction h with
  | construct cols rows bombs h => exact EngineInv_new h
  | reveal b ds col row b' hb hcol hrow hds hset ih => exact EngineInv_set ih hcol hrow hset
  | annotate b col row b' hb hcol hrow hset ih => exact EngineInv_annotate ih hcol hrow hset

theorem placeBombs22_stuck : ∀ (ds : List (Nat × Nat)) (b : Gameboard), b.bombs = 1 →
    (∀ d ∈ ds, d.1 < 2 ∧ d.2 < 2) → placeBombs 0 0 ds 0 b = none := by
  intro ds
  induction ds with
  | nil =>
    intro b hb _
    rw [placeBombs_nil, if_pos (by omega)]
  | cons d rest ih =>
    intro b hb hds
    obtain ⟨dc, dr⟩ := d
    rw [placeBombs_cons, if_pos (by omega)]
    have hin := hds (dc, dr) (List.mem_cons_self _ _)
    have hnb : is_neighbour 0 0 dc dr = true := by
      simp only [is_neighbour, Bool.and_eq_true, decide_eq_true_eq]
      omega
    rw [if_pos hnb]
    exact ih b hb (fun q hq => hds q (List.mem_cons_of_mem _ hq))

theorem compN_foldl_player : ∀ (l : List (Nat × Nat)) (acc : Gameboard) (c r : Nat),
    ((l.foldl compNStep acc).get_cell c r).player = (acc.get_cell c r).player := by
  intro l
  induction l with
  | nil => intro acc c r; rfl
  | cons q rest ih =>
    intro acc c r
    rw [List.foldl_cons, ih]
    unfold compNStep
    rcases hc : (acc.get_cell q.1 q.2).content with n | _
    · exact player_put_content acc q.1 q.2 _ c r
    · rfl

theorem compN_foldl_state : ∀ (l : List (Nat × Nat)) (acc : Gameboard),
    (l.foldl compNStep acc).state = acc.state := by
  intro l
  induction l with
  | nil => intro acc; rfl
  | cons q rest ih =>
    intro acc
    rw [List.foldl_cons, ih]
    unfold compNStep
    rcases hc : (acc.get_cell q.1 q.2).content with n | _
    · rfl
    · rfl

theorem countNB_eq_bombNeighbors8 {b : Gameboard} {col row : Nat}
    (h : isBomb (b.get_cell col row).content = false) :
    b.count_neighbor_bombs col row = bombNeighbors8 b col row := by
  unfold Gameboard.count_neighbor_bombs bombNeighbors8
  rw [List.countP_filter]
  apply List.countP_congr
  intro p _
  by_cases hpe : p = (col, row)
  · subst hpe
    simp [h]
  · simp [hpe]

theorem won_iff_update {b bm : Gameboard} (hA : b.state = .Alive) (hbm : bm.state = .Alive)
    (hbombs : bm.bombs = b.bombs) (col row : Nat) :
    ((bm.update_state col row).state = .Won ↔
      (bm.update_state col row ≠ b ∧ (bm.update_state col row).state ≠ .Lost ∧
        allRF (bm.update_state col row) = true ∧
        flagCount (bm.update_state col row) = b.bombs)) := by
  by_cases hlost : (bm.get_cell col row).player = .Revealed ∧
      (bm.get_cell col row).content = .Bomb
  · rw [update_state_lost_eq hbm hlost.1 hlost.2]
    constructor
    · intro h
      simp at h
    · rintro ⟨_, hnl, _, _⟩
      exact absurd rfl hnl
  · rw [update_state_scan_eq hbm hlost]
    by_cases hwon : (allRF bm && decide (flagCount bm = bm.bombs)) = true
    · rw [if_pos hwon]
      simp only [Bool.and_eq_true, decide_eq_true_eq] at hwon
      constructor
      · intro _
        refine ⟨?_, ?_, ?_, ?_⟩
        · intro he
          have h2 : GameState.Won = b.state := congrArg Gameboard.state he
          rw [hA] at h2
          cases h2
        · intro hh
          simp at hh
        · show allRF bm = true
          exact hwon.1
        · show flagCount bm = b.bombs
          rw [hwon.2, hbombs]
      · intro _
        rfl
    · rw [if_neg hwon]
      constructor
      · intro h
        have h2 : bm.state = .Won := h
        rw [hbm] at h2
        cases h2
      · rintro ⟨_, _, hall, hfc⟩
        exfalso
        apply hwon
        have hall2 : allRF bm = true := hall
        have hfc2 : flagCount bm = b.bombs := hfc
        simp [hall2, hfc2, hbombs]

/-- C2 (amended): in every state reachable from construction through reveal
and annotate-cycle intents whose phase is not `Lost`, the board's `flagged`
field equals the number of cells whose annotation is `Flagged`.  (Over all
reachable states the claim fails: revealing a flagged bomb enters `Lost`
before the recount, leaving `flagged` stale — see the counterexample.) -/
theorem C2_flagged_matches_count (b : Gameboard) (h : Reachable b)
    (hnl : b.state ≠ .Lost) : b.flagged = flagCount b :=
  (EngineInv_reachable h).2.2.2.1 hnl

theorem reachable_board51 : Reachable board51 :=
  Reachable.reveal (Gameboard.new 5 1 1) [(3, 0)] 0 0 board51
    (Reachable.construct 5 1 1 (by decide)) (by decide) (by decide) (by decide) (by decide)

/-- C2 counterexample: a state reachable via reveal and annotate-cycle
intents (reveal (0,0), flag (3,0), reveal (3,0)) whose `flagged` field reads
1 while no cell is `Flagged` any more. -/
theorem C2_counterexample :
    Reachable board51lost ∧ board51lost.flagged = 1 ∧ flagCount board51lost = 0 := by
  have h2 : Reachable board51f :=
    Reachable.annotate board51 3 0 board51f reachable_board51 (by decide) (by decide)
      (by decide)
  have h3 : Reachable board51lost :=
    Reachable.reveal board51f [] 3 0 board51lost h2 (by decide) (by decide) (by decide)
      (by decide)
  exact ⟨h3, by decide, by decide⟩

/-- Witness for C2: the freshly constructed 2×2 board. -/
theorem C2_witness :
    (Gameboard.new 2 2 1).state ≠ .Lost ∧
      (Gameboard.new 2 2 1).flagged = flagCount (Gameboard.new 2 2 1) :=
  ⟨by decide, C2_flagged_matches_count (Gameboard.new 2 2 1)
    (Reachable.construct 2 2 1 (by decide)) (by decide)⟩

/-- C5: in every reachable state past initialization (phase not `Pending`,
i.e. not `Initial`), every cell storing `Empty(n)` (`Nothing n`) has `n`
equal to the number of bomb-content cells among its in-bounds 8-neighbours
(the cell itself excluded). -/
theorem C5_neighbor_counts (b : Gameboard) (h : Reachable b) (hnI : b.state ≠ .Initial)
    (col row : Nat) (hc : col < b.size.1) (hr : row < b.size.2) (n : Nat)
    (hn : (b.get_cell col row).content = .Nothing n) : n = bombNeighbors8 b col row := by
  have hcons := (EngineInv_reachable h).2.2.1 hnI
  rw [hcons col row hc hr n hn]
  exact countNB_eq_bombNeighbors8 (by rw [hn]; rfl)

/-- Witness for C5: on `board51`, cell (4,0) stores count 1, the bomb at
(3,0) being its only neighbour. -/
theorem C5_witness :
    board51.state ≠ .Initial ∧ 4 < board51.size.1 ∧ 0 < board51.size.2 ∧
      (board51.get_cell 4 0).content = .Nothing 1 ∧ 1 = bombNeighbors8 board51 4 0 :=
  ⟨by decide, by decide, by decide, by decide,
    C5_neighbor_counts board51 reachable_board51 (by decide) 4 0 (by decide) (by decide) 1
      (by decide)⟩

/-- C6: in every reachable state whose phase is not `Lost`, no cell whose
content is `Bomb` has annotation `Revealed`. -/
theorem C6_no_revealed_bomb (b : Gameboard) (h : Reachable b) (hnl : b.state ≠ .Lost)
    (col row : Nat) (hbomb : (b.get_cell col row).content = .Bomb) :
    (b.get_cell col row).player ≠ .Revealed :=
  (EngineInv_reachable h).2.2.2.2 hnl col row hbomb

/-- Witness for C6: the bomb of `board51` is not revealed. -/
theorem C6_witness :
    board51.state ≠ .Lost ∧ (board51.get_cell 3 0).content = .Bomb ∧
      (board51.get_cell 3 0).player ≠ .Revealed :=
  ⟨by decide, by decide,
    C6_no_revealed_bomb board51 reachable_board51 (by decide) 3 0 (by decide)⟩

/-- C7: once the phase is `Won` or `Lost`, reveal and annotate-cycle intents
return the board unchanged: no cell, counter or phase is ever mutated
again. -/
theorem C7_terminal_noop (b : Gameboard) (ds : List (Nat × Nat)) (col row : Nat)
    (val : PlayerCell) (h : b.state = .Won ∨ b.state = .Lost) :
    b.set ds col row val = some b ∧ b.annotate_cycle col row = some b := by
  have h1 : b.state ≠ .Initial := by
    rcases h with h | h
    · rw [h]
      intro hh
      cases hh
    · rw [h]
      intro hh
      cases hh
  have h2 : b.state ≠ .Alive := by
    rcases h with h | h
    · rw [h]
      intro hh
      cases hh
    · rw [h]
      intro hh
      cases hh
  refine ⟨set_not_initial_not_alive h1 h2 ds col row val, ?_⟩
  unfold Gameboard.annotate_cycle
  rcases hp : (b.get_cell col row).player with _ | _ | _ | _
  · exact set_not_initial_not_alive h1 h2 [] col row .Flagged
  · exact set_not_initial_not_alive h1 h2 [] col row .Question
  · exact set_not_initial_not_alive h1 h2 [] col row .NotDetermined
  · rfl

/-- Witness for C7: intents on a `Lost` board are no-ops. -/
theorem C7_witness :
    (lostBoard.state = .Won ∨ lostBoard.state = .Lost) ∧
      lostBoard.set [] 0 0 .Revealed = some lostBoard ∧
      lostBoard.annotate_cycle 0 0 = some lostBoard :=
  ⟨Or.inr rfl, (C7_terminal_noop lostBoard [] 0 0 .Revealed (Or.inr rfl)).1,
    (C7_terminal_noop lostBoard [] 0 0 .Revealed (Or.inr rfl)).2⟩

/-- C8: on a well-formed board the flood fill terminates — the recursion
depth budget `cols*rows + 1` is never exhausted, for grids of any size
(hence in particular up to 10,000 cells) — and the reveal path never writes
to a cell that is already `Revealed`: such cells are left exactly as they
were. -/
theorem C8_cascade_terminates (b : Gameboard) (col row : Nat) (hwf : b.WF) :
    (revealDescend (b.size.1 * b.size.2 + 1) b col row).isSome = true ∧
      ∀ c r, (b.get_cell c r).player = .Revealed →
        (b.reveal_with_no_neighbors col row).get_cell c r = b.get_cell c r := by
  refine ⟨revealDescend_some _ b col row hwf (by have := unrevealedCount_le b; omega), ?_⟩
  intro c r hrev
  exact (reveal_step b col row).revealed_keep hrev

/-- Witness for C8: flood fill from (0,0) terminates within the budget and
leaves the already revealed cell (1,1) untouched. -/
theorem C8_witness :
    c8board.WF ∧
      (revealDescend (c8board.size.1 * c8board.size.2 + 1) c8board 0 0).isSome = true ∧
      (c8board.get_cell 1 1).player = .Revealed ∧
      (c8board.reveal_with_no_neighbors 0 0).get_cell 1 1 = c8board.get_cell 1 1 :=
  ⟨by decide, (C8_cascade_terminates c8board 0 0 (by decide)).1, by decide,
    (C8_cascade_terminates c8board 0 0 (by decide)).2 1 1 (by decide)⟩

/-- C9: on an `Alive` board whose `flagged` count has reached `bombs`,
the annotate-cycle intent on a `NotDetermined` cell is rejected: the board
(cell annotation and `flagged` included) is returned unchanged. -/
theorem C9_flag_budget (b : Gameboard) (col row : Nat) (hA : b.state = .Alive)
    (hnd : (b.get_cell col row).player = .NotDetermined) (hfb : b.flagged = b.bombs) :
    b.annotate_cycle col row = some b := by
  unfold Gameboard.annotate_cycle
  rw [hnd]
  exact set_alive_flagcap hA (by omega) [] col row

/-- Witness for C9: flagging is refused at the cap. -/
theorem C9_witness :
    c9board.state = .Alive ∧ (c9board.get_cell 0 0).player = .NotDetermined ∧
      c9board.flagged = c9board.bombs ∧ c9board.annotate_cycle 0 0 = some c9board :=
  ⟨by decide, by decide, by decide, C9_flag_budget c9board 0 0 rfl (by decide) (by decide)⟩

/-- C1 (amended): whenever the first reveal on a freshly constructed board
(with `bombs < cols*rows`) completes — i.e. the in-range draw sequence
supplies enough accepted placements — exactly `bombs` cells of the resulting
grid contain a bomb.  (Termination for *every* draw sequence, as claimed,
fails: see the counterexample, where the whole grid lies in the exclusion
zone and no draw sequence can ever finish.) -/
theorem C1_bomb_count (cols rows bombs col row : Nat) (ds : List (Nat × Nat))
    (b' : Gameboard) (hb : bombs < cols * rows)
    (hds : ∀ d ∈ ds, d.1 < cols ∧ d.2 < rows)
    (hset : (Gameboard.new cols rows bombs).set ds col row .Revealed = some b') :
    bombCount b' = bombs := by
  have hwf := WF_new hb
  have hwf1 : ((Gameboard.new cols rows bombs).put_player col row .Revealed).WF :=
    WF_of_sameShape (sameShape_modify _ _ _ _) hwf
  have hI : (Gameboard.new cols rows bombs).state = .Initial := rfl
  unfold Gameboard.set at hset
  rw [if_pos hI] at hset
  rcases hini : ((Gameboard.new cols rows bombs).put_player col row .Revealed).init ds col row
    with _ | b2
  · simp only [hini] at hset
    exact absurd hset (by simp)
  · simp only [hini] at hset
    obtain ⟨bp, hpb, hb2⟩ := init_cases hini
    have hcnt0 : bombCount ((Gameboard.new cols rows bombs).put_player col row .Revealed)
        = 0 := by
      apply List.countP_eq_zero.mpr
      intro p _
      rw [content_put_player _ col row .Revealed p.1 p.2, get_cell_new]
      decide
    have hcntp : bombCount bp = bombs :=
      placeBombs_count col row ds 0 _ bp hwf1 (fun d hd => hds d hd) (Nat.zero_le _)
        hcnt0 hpb
    have hwfp : bp.WF :=
      WF_of_sameShape (placeBombs_pres col row ds 0 _ bp hpb).shape hwf1
    have hcn := computeNeighbors_spec hwfp
    have hcnt2 : bombCount b2 = bombs := by
      subst hb2
      have h : bombCount { computeNeighbors bp with state := GameState.Alive }
          = bombCount bp :=
        count_pointwise_congr bp _ hcn.1.shape.1 (fun cell => isBomb cell.content)
          (fun c r => by rw [withState_get_cell]; exact hcn.2.1 c r)
      rw [h, hcntp]
    rcases hcc : (b2.get_cell col row).content with k | _
    · rcases k with _ | k2
      · simp only [hcc, Option.some.injEq] at hset
        subst hset
        have hstep := reveal_step b2 col row
        have h : bombCount (b2.reveal_with_no_neighbors col row) = bombCount b2 :=
          count_pointwise_congr b2 _ hstep.shape.1 (fun cell => isBomb cell.content)
            (fun c r => congrArg isBomb (hstep.content_eq c r))
        rw [h, hcnt2]
      · simp only [hcc] at hset
        obtain rfl := Option.some.inj hset
        exact hcnt2
    · simp only [hcc] at hset
      obtain rfl := Option.some.inj hset
      exact hcnt2

/-- C1 counterexample: on the 2×2 board with one bomb (a legal construction:
1 < 4), the first reveal at (0,0) puts the whole grid inside the exclusion
zone, so no in-range draw sequence, however long, lets the placement loop
finish — the Rust loop runs forever. -/
theorem C1_counterexample :
    ¬ ∃ ds : List (Nat × Nat), (∀ d ∈ ds, d.1 < 2 ∧ d.2 < 2) ∧
      ((Gameboard.new 2 2 1).set ds 0 0 .Revealed).isSome = true := by
  rintro ⟨ds, hds, hsome⟩
  have hpb : placeBombs 0 0 ds 0 ((Gameboard.new 2 2 1).put_player 0 0 .Revealed) = none :=
    placeBombs22_stuck ds _ rfl hds
  have hinit : ((Gameboard.new 2 2 1).put_player 0 0 .Revealed).init ds 0 0 = none := by
    unfold Gameboard.init
    rw [hpb]
  rw [set_initial_reveal_none rfl hinit] at hsome
  simp at hsome

/-- Witness for C1: the 3×3 first reveal completes and places exactly one
bomb. -/
theorem C1_witness :
    1 < 3 * 3 ∧ (∀ d ∈ [((2 : Nat), (2 : Nat))], d.1 < 3 ∧ d.2 < 3) ∧
      (Gameboard.new 3 3 1).set [(2, 2)] 0 0 .Revealed = some board33 ∧
      bombCount board33 = 1 :=
  ⟨by decide, by decide, by decide,
    C1_bomb_count 3 3 1 0 0 [(2, 2)] board33 (by decide) (by decide) (by decide)⟩

/-- C4: immediately after a completed first reveal at in-range `(col, row)`
on a freshly constructed board, no cell of the closed 8-neighbourhood of
`(col, row)` (the cell itself included, clipping implicit  in
`is_neighbour`) contains a bomb. -/
theorem C4_safe_neighborhood (cols rows bombs col row : Nat) (ds : List (Nat × Nat))
    (b' : Gameboard) (hb : bombs < cols * rows) (hc : col < cols) (hr : row < rows)
    (hset : (Gameboard.new cols rows bombs).set ds col row .Revealed = some b') :
    ∀ c2 r2, is_neighbour col row c2 r2 = true → (b'.get_cell c2 r2).content ≠ .Bomb := by
  intro c2 r2 hnb
  have hwf := WF_new hb
  have hwf1 : ((Gameboard.new cols rows bombs).put_player col row .Revealed).WF :=
    WF_of_sameShape (sameShape_modify _ _ _ _) hwf
  have hI : (Gameboard.new cols rows bombs).state = .Initial := rfl
  unfold Gameboard.set at hset
  rw [if_pos hI] at hset
  rcases hini : ((Gameboard.new cols rows bombs).put_player col row .Revealed).init ds col row
    with _ | b2
  · simp only [hini] at hset
    exact absurd hset (by simp)
  · simp only [hini] at hset
    obtain ⟨bp, hpb, hb2⟩ := init_cases hini
    have hwfp : bp.WF :=
      WF_of_sameShape (placeBombs_pres col row ds 0 _ bp hpb).shape hwf1
    have hcn := computeNeighbors_spec hwfp
    have hbp : (bp.get_cell c2 r2).content = .Nothing 0 := by
      rw [placeBombs_keep_neighbour col row ds 0 _ bp hpb c2 r2 hnb,
        content_put_player _ col row .Revealed c2 r2, get_cell_new]
      rfl
    have hb2bomb : isBomb (b2.get_cell c2 r2).content = false := by
      rw [hb2, withState_get_cell, hcn.2.1 c2 r2, hbp]
      rfl
    rcases hcc : (b2.get_cell col row).content with k | _
    · rcases k with _ | k2
      · simp only [hcc, Option.some.injEq] at hset
        subst hset
        rw [(reveal_step b2 col row).content_eq c2 r2]
        intro hh
        rw [hh] at hb2bomb
        simp [isBomb] at hb2bomb
      · simp only [hcc] at hset
        obtain rfl := Option.some.inj hset
        intro hh
        rw [hh] at hb2bomb
        simp [isBomb] at hb2bomb
    · simp only [hcc] at hset
      obtain rfl := Option.some.inj hset
      intro hh
      rw [hh] at hb2bomb
      simp [isBomb] at hb2bomb

/-- Witness for C4: on the completed 3×3 first reveal, the neighbour (1,1)
of the revealed cell carries no bomb. -/
theorem C4_witness :
    1 < 3 * 3 ∧ 0 < 3 ∧ 0 < 3 ∧
      (Gameboard.new 3 3 1).set [(2, 2)] 0 0 .Revealed = some board33 ∧
      is_neighbour 0 0 1 1 = true ∧ (board33.get_cell 1 1).content ≠ .Bomb :=
  ⟨by decide, by decide, by decide, by decide, by decide,
    C4_safe_neighborhood 3 3 1 0 0 [(2, 2)] board33 (by decide) (by decide) (by decide)
      (by decide) 1 1 (by decide)⟩

/-- C10: revealing a cell whose annotation is already `Revealed` (and whose
content is not a bomb) is idempotent — a second reveal at the same
coordinate returns exactly the state produced by the first one. -/
theorem C10_reveal_idempotent (b b1 : Gameboard) (ds ds2 : List (Nat × Nat))
    (col row : Nat) (hrev : (b.get_cell col row).player = .Revealed)
    (hnb : (b.get_cell col row).content ≠ .Bomb)
    (hset : b.set ds col row .Revealed = some b1) :
    b1.set ds2 col row .Revealed = some b1 := by
  by_cases hI : b.state = .Initial
  · unfold Gameboard.set at hset
    rw [if_pos hI] at hset
    rcases hini : (b.put_player col row .Revealed).init ds col row with _ | b2
    · simp only [hini] at hset
      exact absurd hset (by simp)
    · simp only [hini] at hset
      obtain ⟨bp, hpb, hb2⟩ := init_cases hini
      have hpp := placeBombs_pres col row ds 0 _ bp hpb
      have hp1 : ((b.put_player col row .Revealed).get_cell col row).player = .Revealed := by
        rcases player_put_player_mono b col row .Revealed col row with hm | hm
        · rw [hm, hrev]
        · exact hm
      have hp2 : (b2.get_cell col row).player = .Revealed := by
        rw [hb2, withState_get_cell]
        rw [show ((computeNeighbors bp).get_cell col row).player =
          (bp.get_cell col row).player from
          compN_foldl_player (indexList bp.size.1 bp.size.2) bp col row]
        rw [hpp.player_eq col row]
        exact hp1
      have hst2 : b2.state = .Alive := by rw [hb2]
      rcases hcc : (b2.get_cell col row).content with k | _
      · rcases k with _ | k2
        · simp only [hcc, Option.some.injEq] at hset
          subst hset
          have hstep := reveal_step b2 col row
          apply set_alive_revealed_noop
          · exact hstep.state_eq.trans hst2
          · rw [hstep.revealed_keep hp2]
            exact hp2
        · simp only [hcc] at hset
          obtain rfl := Option.some.inj hset
          exact set_alive_revealed_noop hst2 hp2 ds2 .Revealed
      · simp only [hcc] at hset
        obtain rfl := Option.some.inj hset
        exact set_alive_revealed_noop hst2 hp2 ds2 .Revealed
  · by_cases hA : b.state = .Alive
    · rw [set_alive_revealed_noop hA hrev ds .Revealed] at hset
      obtain rfl := Option.some.inj hset
      exact set_alive_revealed_noop hA hrev ds2 .Revealed
    · rw [set_not_initial_not_alive hI hA ds col row .Revealed] at hset
      obtain rfl := Option.some.inj hset
      exact set_not_initial_not_alive hI hA ds2 col row .Revealed

/-- Witness for C10: re-revealing the already revealed cell (0,0) of
`wonReadyBoard` is a no-op both times. -/
theorem C10_witness :
    (wonReadyBoard.get_cell 0 0).player = .Revealed ∧
      (wonReadyBoard.get_cell 0 0).content ≠ .Bomb ∧
      wonReadyBoard.set [] 0 0 .Revealed = some wonReadyBoard ∧
      wonReadyBoard.set [] 0 0 .Revealed = some wonReadyBoard :=
  ⟨by decide, by decide, by decide,
    C10_reveal_idempotent wonReadyBoard wonReadyBoard [] [] 0 0 (by decide) (by decide)
      (by decide)⟩

/-- C3 (amended): while the game is `Alive`, an intent delivered through
`set` yields `Won` exactly when it actually changed the board, did not lose
it (revealing a bomb wins priority and yields `Lost` even if every cell is
then `Revealed`/`Flagged` with `bombs` flags), and left every cell
`Revealed` or `Flagged` with exactly `bombs` flags.  (The original claim
fails in two ways, shown by the counterexample: the first reveal out of the
`Initial` phase never evaluates the win condition, and a lost board can
satisfy the all-revealed-or-flagged condition.) -/
theorem C3_won_iff (b : Gameboard) (ds : List (Nat × Nat)) (col row : Nat)
    (val : PlayerCell) (b' : Gameboard) (hA : b.state = .Alive)
    (hset : b.set ds col row val = some b') :
    (b'.state = .Won ↔
      (b' ≠ b ∧ b'.state ≠ .Lost ∧ allRF b' = true ∧ flagCount b' = b.bombs)) := by
  by_cases hcap : (isFlagged val && decide (b.bombs ≤ b.flagged)) = true
  · have hvf : val = .Flagged := by
      rcases val with _ | _ | _ | _
      · simp [isFlagged] at hcap
      · rfl
      · simp [isFlagged] at hcap
      · simp [isFlagged] at hcap
    subst hvf
    have hle : b.bombs ≤ b.flagged := by simpa [isFlagged] using hcap
    rw [set_alive_flagcap hA hle ds col row] at hset
    obtain rfl := Option.some.inj hset
    constructor
    · intro h
      rw [hA] at h
      cases h
    · rintro ⟨hne, _, _, _⟩
      exact absurd rfl hne
  · by_cases hrev : (b.get_cell col row).player = .Revealed
    · rw [set_alive_revealed_noop hA hrev ds val] at hset
      obtain rfl := Option.some.inj hset
      constructor
      · intro h
        rw [hA] at h
        cases h
      · rintro ⟨hne, _, _, _⟩
        exact absurd rfl hne
    · by_cases hvr : val = .Revealed
      · subst hvr
        by_cases hz : ((b.put_player col row .Revealed).get_cell col row).content =
            .Nothing 0
        · rw [set_alive_cascade hA hrev hz ds] at hset
          obtain rfl := Option.some.inj hset
          exact won_iff_update hA
            ((reveal_step (b.put_player col row .Revealed) col row).state_eq.trans hA)
            ((reveal_step (b.put_player col row .Revealed) col row).bombs_eq.trans rfl)
            col row
        · rw [set_alive_reveal_plain hA hrev (fun hh => hz hh) ds] at hset
          obtain rfl := Option.some.inj hset
          exact won_iff_update hA
            (show (b.put_player col row .Revealed).state = .Alive from hA) rfl col row
      · rw [set_alive_annotate hA hvr hcap hrev ds] at hset
        obtain rfl := Option.some.inj hset
        exact won_iff_update hA
          (show (b.put_player col row val).state = .Alive from hA) rfl col row

/-- C3 counterexample, refuting "the phase becomes `Won` exactly when a
state-changing intent leaves every cell `Revealed`/`Flagged` with
`bomb_count` flags" on two reachable scenarios: (a) the first reveal of a
1×1 zero-bomb board changes the state and leaves the win condition
satisfied, yet the phase stays `Alive`; (b) revealing the bomb of
`board51w` changes the state and leaves the condition satisfied, yet the
phase becomes `Lost`. -/
theorem C3_counterexample :
    ((Gameboard.new 1 1 0).set [] 0 0 .Revealed = some c3oneone ∧ Reachable c3oneone ∧
      c3oneone ≠ Gameboard.new 1 1 0 ∧ allRF c3oneone = true ∧
      flagCount c3oneone = (Gameboard.new 1 1 0).bombs ∧ c3oneone.state ≠ .Won) ∧
    (board51w.state = .Alive ∧ board51w.set [] 3 0 .Revealed = some board51wlost ∧
      Reachable board51wlost ∧ board51wlost ≠ board51w ∧ allRF board51wlost = true ∧
      flagCount board51wlost = board51w.bombs ∧ board51wlost.state ≠ .Won) := by
  constructor
  · refine ⟨by decide, ?_, by decide, by decide, by decide, by decide⟩
    exact Reachable.reveal (Gameboard.new 1 1 0) [] 0 0 c3oneone
      (Reachable.construct 1 1 0 (by decide)) (by decide) (by decide) (by decide) (by decide)
  · refine ⟨by decide, by decide, ?_, by decide, by decide, by decide, by decide⟩
    have h2 : Reachable board51w :=
      Reachable.annotate board51 4 0 board51w reachable_board51 (by decide) (by decide)
        (by decide)
    exact Reachable.reveal board51w [] 3 0 board51wlost h2 (by decide) (by decide)
      (by decide) (by decide)

/-- Witness for C3: flagging the bomb of `wonReadyBoard` is a state-changing
intent that satisfies the win condition, and the phase indeed becomes
`Won`. -/
theorem C3_witness :
    wonReadyBoard.state = .Alive ∧
      wonReadyBoard.set [] 1 0 .Flagged = some wonBoard ∧
      ((wonBoard.state = .Won) ↔
        (wonBoard ≠ wonReadyBoard ∧ wonBoard.state ≠ .Lost ∧ allRF wonBoard = true ∧
          flagCount wonBoard = wonReadyBoard.bombs)) :=
  ⟨rfl, by decide, C3_won_iff wonReadyBoard [] 1 0 .Flagged wonBoard rfl (by decide)⟩
